import Mathlib

/-!
# wolfSSHD configuration parser (`apps/wolfsshd/config.c`)

A shallow embedding of the directive parser of the wolfSSH daemon and the
properties of it that the specification states.

## Memory model

* A `char` is a `Char`; a C string or byte span is the `List Char` of its bytes.
  A list stands for a buffer whose bytes are followed by the terminating NUL,
  so reading one position past the end of the list yields `'\0'`.
* A `char*` that may be `NULL` is an `Option (List Char)`; `none` is `NULL`.
* A function whose C body can run into undefined behaviour (reading through a
  null pointer, reading outside the line buffer, copying a negative number of
  bytes) returns an `Option`; `none` is that fault.
* `WMALLOC` is taken to succeed: the `WS_MEMORY_E` branches of the source are
  not reachable in this model.
* `long` is a 64-bit two's complement integer, modelled as an `Int`. The
  product `ret * mult` is wrapped by `wrapLong`; `atol` returns `LONG_MAX` or
  `LONG_MIN` for text that denotes a number outside `long`, as `strtol` does.
-/

namespace WolfSSHD

/-! ## Constants that the sources include from headers outside the repository slice -/

/-- Modelled from the spec: `wolfssh/error.h` is not among the sources. The
specification only fixes that success is one status; the value is the one of
the wolfSSH error enumeration, and `wolfSSHD_GetConfigInt` itself tests its
status against the literal `0`. -/
def WS_SUCCESS : Int := 0

/-- Modelled from the spec: `wolfssh/error.h` is not among the sources. The
bad-argument / empty-value status is a negative sentinel distinct from success;
the value is the one of the wolfSSH error enumeration. -/
def WS_BAD_ARGUMENT : Int := -1002

/-- Modelled from the spec: `wolfssl/wolfcrypt/error-crypt.h` is not among the
sources. Status of `wolfSSHD_LoadSSHD` for a null object, a null file name or a
file that cannot be opened; the value is the one of the wolfCrypt enumeration. -/
def BAD_FUNC_ARG : Int := -173

/-- Modelled from the spec: the option keys of `wolfSSHD_ConfigGetOption` are
declared in a header that is not among the sources; the specification names
them (empty-password flag, login-grace seconds) and the `switch` needs them
distinct. Only their distinctness is used. -/
def WOLFSSHD_EMPTY_PASSWORD : Nat := 1

/-- Modelled from the spec: second option key of `wolfSSHD_ConfigGetOption`,
see `WOLFSSHD_EMPTY_PASSWORD`. -/
def WOLFSSHD_GRACE_LOGIN_TIME : Nat := 2

/-- The line buffer size of `wolfSSHD_LoadSSHD` (`#define MAX_LINE_SIZE 160`). -/
def MAX_LINE_SIZE : Nat := 160

/-! ## C library functions used by the source -/

/-- Two's complement wrap of a mathematical integer into a 64-bit `long`. -/
def wrapLong (x : Int) : Int := (x + 2 ^ 63) % 2 ^ 64 - 2 ^ 63

/-- The value `strtol` hands back for a number outside `long`: `LONG_MAX` above
the range and `LONG_MIN` below it. -/
def saturateLong (x : Int) : Int :=
  if x > 2 ^ 63 - 1 then 2 ^ 63 - 1 else if x < -2 ^ 63 then -2 ^ 63 else x

/-- `strlen`: the number of bytes before the first NUL. -/
def XSTRLEN : List Char → Nat
  | [] => 0
  | c :: t => if c = '\x00' then 0 else XSTRLEN t + 1

/-- `strncmp(s1, s2, n)`: compares at most `n` bytes and stops at a NUL. The
end of a list is the terminating NUL of the string it stands for. The result
is the difference of the first differing bytes, `0` when there is none. -/
def XSTRNCMP : List Char → List Char → Nat → Int
  | _, _, 0 => 0
  | s1, s2, n + 1 =>
    let c1 := s1.headD '\x00'
    let c2 := s2.headD '\x00'
    if c1 ≠ c2 then (c1.toNat : Int) - (c2.toNat : Int)
    else if c1 = '\x00' then 0
    else XSTRNCMP s1.tail s2.tail n

/-- `strncmp` with a first argument that may be `NULL`: reading through the
null pointer is a fault. -/
def XSTRNCMP_ptr (s1 : Option (List Char)) (s2 : List Char) (n : Nat) : Option Int :=
  match s1 with
  | none => none
  | some s => some (XSTRNCMP s s2 n)

/-- `isspace` in the C locale. -/
def isspace (c : Char) : Bool :=
  c = ' ' || c = '\t' || c = '\n' || c = '\x0b' || c = '\x0c' || c = '\r'

/-- `isdigit`. -/
def isdigit (c : Char) : Bool := decide ('0' ≤ c) && decide (c ≤ '9')

/-- The digit loop of `atol`: accumulates the leading decimal digits. -/
def atolDigits : List Char → Nat → Nat
  | [], acc => acc
  | c :: t, acc => if isdigit c then atolDigits t (10 * acc + (c.toNat - '0'.toNat)) else acc

/-- `atol`, which is `strtol(s, NULL, 10)`: skips white space, reads an
optional sign and the leading decimal digits; `0` when there are none. For a
number outside `long` the result is `LONG_MAX` or `LONG_MIN`. -/
def atol (s : List Char) : Int :=
  match s.dropWhile isspace with
  | '-' :: t => saturateLong (-(atolDigits t 0 : Int))
  | '+' :: t => saturateLong (atolDigits t 0 : Int)
  | t => saturateLong (atolDigits t 0 : Int)

/-- The byte at index `i` of the buffer `l`: the terminating NUL at index
`l.length`, a fault (`none`) outside the buffer. -/
def readAt (l : List Char) (i : Int) : Option Char :=
  if i < 0 then none else (l ++ ['\x00'])[i.toNat]?

/-! ## The configuration object -/

/-- The aggregate `struct WOLFSSHD_CONFIG`, field by field. String fields are
nullable pointers, `heap` is the allocator hint pointer, the four one-bit
fields are booleans. -/
structure WOLFSSHD_CONFIG where
  heap : Nat
  banner : Option (List Char)
  chrootDir : Option (List Char)
  ciphers : Option (List Char)
  hostKey : Option (List Char)
  hostKeyAlgos : Option (List Char)
  kekAlgos : Option (List Char)
  listenAddress : Option (List Char)
  authKeysFile : Option (List Char)
  loginTimer : Int
  port : Nat
  usePrivilegeSeparation : Nat
  passwordAuth : Bool
  pubKeyAuth : Bool
  permitRootLogin : Bool
  permitEmptyPasswords : Bool
  deriving DecidableEq, Repr, Inhabited

/-- The object `wolfSSHD_NewConfig` builds: zeroed storage (`WMEMSET`), then
the default port. The stored allocator hint stays zero. -/
def freshConfig : WOLFSSHD_CONFIG :=
  { heap := 0, banner := none, chrootDir := none, ciphers := none, hostKey := none,
    hostKeyAlgos := none, kekAlgos := none, listenAddress := none, authKeysFile := none,
    loginTimer := 0, port := 9387, usePrivilegeSeparation := 0, passwordAuth := false,
    pubKeyAuth := false, permitRootLogin := false, permitEmptyPasswords := false }

/-- `wolfSSHD_NewConfig(heap)`: the `heap` argument is only handed to the
allocator. The result is a non-null object. -/
def wolfSSHD_NewConfig (_heap : Nat) : Option WOLFSSHD_CONFIG :=
  some freshConfig

/-! ## Value extractors -/

/-- The loop `while (idx < inSz && in[idx] == ' ') idx++;` run from `idx = 0`
over the span `inp`: the resulting `idx`. -/
def skipSpaces : List Char → Nat
  | [] => 0
  | c :: t => if c = ' ' then skipSpaces t + 1 else 0

/-- The loop `for (sz = 1; sz + idx < inSz; sz++)` of `wolfSSHD_GetConfigInt`,
which breaks at a space or a newline: given the bytes from `in[idx + 1]` on, the
number of iterations completed before the exit. -/
def tokenScan : List Char → Nat
  | [] => 0
  | c :: t => if c = ' ' then 0 else if c = '\n' then 0 else tokenScan t + 1

/-- `wolfSSHD_GetConfigInt(in, inSz, isTime, heap)` where `in = l + off` points
into the line buffer `l` and `inSz` is the number of bytes of `l` from `off` on.
The buffer is kept because the multiplier test reads `in[sz - 1 + idx]`, which
is the byte before the token once a suffix has been removed. -/
def wolfSSHD_GetConfigInt (l : List Char) (off : Nat) (isTime : Bool) : Option Int :=
  let inp := l.drop off
  let inSz := inp.length
  let mult0 : Int := 1
  /- remove leading white spaces -/
  let idx := skipSpaces inp
  let ret0 : Int := if idx = inSz then WS_BAD_ARGUMENT else 0
  /- remove trailing white spaces -/
  let sz0 : Int := if ret0 = 0 then (tokenScan (inp.drop (idx + 1)) : Int) + 1 else 0
  /- check for multipliers -/
  let step1 : Option (Int × Int) :=
    if isTime = true ∧ ret0 = 0 then
      (readAt l (off + (sz0 - 1 + idx))).map
        (fun c => if c = 'm' then (sz0 - 1, 60) else (sz0, mult0))
    else some (sz0, mult0)
  let step2 : Option (Int × Int) :=
    step1.bind (fun (sz1, mult1) =>
      if isTime = true ∧ ret0 = 0 then
        (readAt l (off + (sz1 - 1 + idx))).map
          (fun c => if c = 'h' then (sz1 - 1, 60 * 60) else (sz1, mult1))
      else some (sz1, mult1))
  step2.bind (fun (sz, mult) =>
    if ret0 = 0 then
      /- WMEMCPY(num, in + idx, sz) with a negative sz is a fault -/
      if sz < 0 then none
      else
        let num := (inp.drop idx).take sz.toNat
        let ret := atol num
        some (if ret > 0 then wrapLong (ret * mult) else ret)
    else some ret0)

/-- `wolfSSHD_CreateString(out, in, inSz, heap)` on the span `inp` of `inSz`
bytes: the status and the value of `*out` afterwards. `out` is the value of
`*out` before the call, which a failing call leaves as it was. -/
def wolfSSHD_CreateString (out : Option (List Char)) (inp : List Char) :
    Int × Option (List Char) :=
  let inSz := inp.length
  /- remove leading white spaces -/
  let idx := skipSpaces inp
  let ret : Int := if idx = inSz then WS_BAD_ARGUMENT else WS_SUCCESS
  /- malloc new string and set it -/
  if ret = WS_SUCCESS then (ret, some (inp.drop idx)) else (ret, out)

/-! ## Accessors -/

/-- `wolfSSHD_GetAuthKeysFile`. -/
def wolfSSHD_GetAuthKeysFile (conf : Option WOLFSSHD_CONFIG) : Option (List Char) :=
  match conf with
  | some c => c.authKeysFile
  | none => none

/-- `wolfSSHD_SetAuthKeysFile`: the status and the object afterwards. The
pointer is stored without a copy. -/
def wolfSSHD_SetAuthKeysFile (conf : Option WOLFSSHD_CONFIG) (file : Option (List Char)) :
    Int × Option WOLFSSHD_CONFIG :=
  match conf with
  | none => (WS_BAD_ARGUMENT, none)
  | some c => (WS_SUCCESS, some { c with authKeysFile := file })

/-- `wolfSSHD_GetBanner`. -/
def wolfSSHD_GetBanner (conf : Option WOLFSSHD_CONFIG) : Option (List Char) :=
  match conf with
  | some c => c.banner
  | none => none

/-- `wolfSSHD_GetHostPrivateKey`. -/
def wolfSSHD_GetHostPrivateKey (conf : Option WOLFSSHD_CONFIG) : Option (List Char) :=
  match conf with
  | some c => c.hostKey
  | none => none

/-- `wolfSSHD_SetHostPrivateKey`. -/
def wolfSSHD_SetHostPrivateKey (conf : Option WOLFSSHD_CONFIG)
    (hostKeyFile : Option (List Char)) : Int × Option WOLFSSHD_CONFIG :=
  match conf with
  | none => (WS_BAD_ARGUMENT, none)
  | some c => (WS_SUCCESS, some { c with hostKey := hostKeyFile })

/-- `wolfSSHD_GetPort`. -/
def wolfSSHD_GetPort (conf : Option WOLFSSHD_CONFIG) : Nat :=
  match conf with
  | some c => c.port
  | none => 0

/-- `wolfSSHD_ConfigGetOption`: the `switch` reads through `conf` in its two
cases without a null test, so a null object is a fault there; any other key
leaves `ret = 0`. -/
def wolfSSHD_ConfigGetOption (conf : Option WOLFSSHD_CONFIG) (opt : Nat) : Option Int :=
  if opt = WOLFSSHD_EMPTY_PASSWORD then
    conf.map (fun c => if c.permitEmptyPasswords then 1 else 0)
  else if opt = WOLFSSHD_GRACE_LOGIN_TIME then
    conf.map (fun c => c.loginTimer)
  else some 0

/-! ## Directive dispatcher

`wolfSSHD_ParseConfigLine` is a straight chain of `if` blocks over the two
locals `ret` and `conf`. Each block is one function on the pair `(ret, conf)`;
the dispatcher runs them in source order. The line `l` is a buffer of `lSz`
bytes followed by the terminating NUL. -/

/-- `const char authKeyFile[]`. -/
def authKeyFile : List Char := "AuthorizedKeysFile".toList
/-- `const char privilegeSeparation[]`. -/
def privilegeSeparation : List Char := "UsePrivilegeSeparation".toList
/-- `const char loginGraceTime[]`. -/
def loginGraceTime : List Char := "LoginGraceTime".toList
/-- `const char permitEmptyPasswords[]`. -/
def permitEmptyPasswords : List Char := "PermitEmptyPasswords".toList

/-- The block of lines 209-215: `AuthorizedKeysFile`. The local `tmp` is not
initialised and is read only after a successful extraction. -/
def blockAuthKeysFile (l : List Char) (st : Int × WOLFSSHD_CONFIG) :
    Option (Int × WOLFSSHD_CONFIG) :=
  let lSz := l.length
  let sz := XSTRLEN authKeyFile
  if lSz > sz ∧ XSTRNCMP l authKeyFile sz = 0 then
    let r := wolfSSHD_CreateString none (l.drop sz)
    if r.1 = WS_SUCCESS then
      some (r.1, ((wolfSSHD_SetAuthKeysFile (some st.2) r.2).2).getD st.2)
    else some (r.1, st.2)
  else some st

/-- The block of lines 217-243: `UsePrivilegeSeparation`. The three
comparisons read `privType` whatever the extractor returned. -/
def blockPrivilegeSeparation (l : List Char) (st : Int × WOLFSSHD_CONFIG) :
    Option (Int × WOLFSSHD_CONFIG) :=
  let lSz := l.length
  let sz := XSTRLEN privilegeSeparation
  if lSz > sz ∧ XSTRNCMP l privilegeSeparation sz = 0 then
    let r := wolfSSHD_CreateString none (l.drop sz)
    let privType := r.2
    do
      /- check if is an allowed option -/
      let c1 ← XSTRNCMP_ptr privType "sandbox".toList 7
      let ret1 := if c1 = 0 then WS_SUCCESS else r.1
      let c2 ← XSTRNCMP_ptr privType "yes".toList 3
      let ret2 := if c2 = 0 then WS_SUCCESS else ret1
      let c3 ← XSTRNCMP_ptr privType "no".toList 2
      let ret3 := if c3 = 0 then WS_SUCCESS else ret2
      some (ret3, st.2)
  else some st

/-- One of the seven blocks of lines 245-278: a directive that is recognised
and not implemented; there is no test of `lSz`. -/
def blockNoop (kw : List Char) (n : Nat) (l : List Char) (st : Int × WOLFSSHD_CONFIG) :
    Option (Int × WOLFSSHD_CONFIG) :=
  if XSTRNCMP l kw n = 0 then some (WS_SUCCESS, st.2) else some st

/-- The block of lines 280-294: `LoginGraceTime`. -/
def blockLoginGraceTime (l : List Char) (st : Int × WOLFSSHD_CONFIG) :
    Option (Int × WOLFSSHD_CONFIG) :=
  let lSz := l.length
  let sz := XSTRLEN loginGraceTime
  if lSz > sz ∧ XSTRNCMP l loginGraceTime sz = 0 then
    do
      let num ← wolfSSHD_GetConfigInt l sz true
      if num < 0 then some st
      else some (WS_SUCCESS, { st.2 with loginTimer := num })
  else some st

/-- The block of lines 297-313: `PermitEmptyPasswords`. The two comparisons
read `emptyPasswd` whatever the extractor returned. -/
def blockPermitEmptyPasswords (l : List Char) (st : Int × WOLFSSHD_CONFIG) :
    Option (Int × WOLFSSHD_CONFIG) :=
  let lSz := l.length
  let sz := XSTRLEN permitEmptyPasswords
  if lSz > sz ∧ XSTRNCMP l permitEmptyPasswords sz = 0 then
    let r := wolfSSHD_CreateString none (l.drop sz)
    let emptyPasswd := r.2
    do
      let c1 ← XSTRNCMP_ptr emptyPasswd "yes".toList 3
      let st1 : Int × WOLFSSHD_CONFIG :=
        if c1 = 0 then (WS_SUCCESS, { st.2 with permitEmptyPasswords := true })
        else (r.1, st.2)
      /- default is no -/
      let c2 ← XSTRNCMP_ptr emptyPasswd "no".toList 2
      let ret2 := if c2 = 0 then WS_SUCCESS else st1.1
      some (ret2, st1.2)
  else some st

/-- `wolfSSHD_ParseConfigLine(conf, l, lSz)` for a non-null `conf`, with
`lSz = l.length`: the returned status and the object afterwards, `none` when
the body faults. -/
def wolfSSHD_ParseConfigLine (conf : WOLFSSHD_CONFIG) (l : List Char) :
    Option (Int × WOLFSSHD_CONFIG) := do
  let st ← blockAuthKeysFile l (WS_BAD_ARGUMENT, conf)
  let st ← blockPrivilegeSeparation l st
  let st ← blockNoop "Subsystem".toList 9 l st
  let st ← blockNoop "ChallengeResponseAuthentication".toList 31 l st
  let st ← blockNoop "UsePAM".toList 6 l st
  let st ← blockNoop "X11Forwarding".toList 13 l st
  let st ← blockNoop "PrintMotd".toList 9 l st
  let st ← blockNoop "AcceptEnv".toList 9 l st
  let st ← blockNoop "Protocol".toList 8 l st
  let st ← blockLoginGraceTime l st
  let st ← blockPermitEmptyPasswords l st
  some st

/-! ## Load loop

The line source (`XFOPEN` / `XFGETS`) is external: a file that can be opened is
the list of the strings that successive `XFGETS(buf, MAX_LINE_SIZE, f)` calls
store in `buf`, each at most `MAX_LINE_SIZE - 1` bytes and ending with the
newline when the line has one. -/

/-- The loop `while (currentSz > 0 && current[0] == ' ')` of
`wolfSSHD_LoadSSHD`: the bytes `current` points to afterwards. -/
def trimLeading : List Char → List Char
  | [] => []
  | c :: t => if c = ' ' then trimLeading t else c :: t

/-- The `while ((current = XFGETS(...)) != NULL)` loop over the remaining
lines, entered with the object `conf` and the local `ret`. -/
def loadLoop (conf : WOLFSSHD_CONFIG) (ret : Int) :
    List (List Char) → Option (Int × WOLFSSHD_CONFIG)
  | [] => some (ret, conf)
  | buf :: rest =>
    /- currentSz = XSTRLEN(current), then remove leading spaces -/
    let current := trimLeading (buf.take (XSTRLEN buf))
    let currentSz := current.length
    if currentSz ≤ 1 then loadLoop conf ret rest /- empty line -/
    else if current.head? = some '#' then loadLoop conf ret rest /- commented out line -/
    else
      match wolfSSHD_ParseConfigLine conf current with
      | none => none
      | some (r, conf1) =>
        if r ≠ WS_SUCCESS then some (r, conf1) /- break -/
        else loadLoop conf1 r rest

/-- `wolfSSHD_LoadSSHD(conf, filename)`: `file` is `none` for a null file name
or a file that cannot be opened. The result is the status and the object
afterwards, `none` when a line makes the dispatcher fault. -/
def wolfSSHD_LoadSSHD (conf : Option WOLFSSHD_CONFIG) (file : Option (List (List Char))) :
    Option (Int × Option WOLFSSHD_CONFIG) :=
  match conf, file with
  | none, _ => some (BAD_FUNC_ARG, none)
  | some c, none => some (BAD_FUNC_ARG, some c)
  | some c, some lines => (loadLoop c WS_SUCCESS lines).map (fun p => (p.1, some p.2))

/-! ## The dispatcher as a chain over a table of guarded blocks -/

/-- A keyword together with the block of the dispatcher that tests for it. -/
structure Directive where
  keyword : List Char
  block : List Char → Int × WOLFSSHD_CONFIG → Option (Int × WOLFSSHD_CONFIG)

/-- The eleven blocks of `wolfSSHD_ParseConfigLine` in source order. -/
def directiveTable : List Directive :=
  [ ⟨authKeyFile, blockAuthKeysFile⟩,
    ⟨privilegeSeparation, blockPrivilegeSeparation⟩,
    ⟨"Subsystem".toList, blockNoop "Subsystem".toList 9⟩,
    ⟨"ChallengeResponseAuthentication".toList,
      blockNoop "ChallengeResponseAuthentication".toList 31⟩,
    ⟨"UsePAM".toList, blockNoop "UsePAM".toList 6⟩,
    ⟨"X11Forwarding".toList, blockNoop "X11Forwarding".toList 13⟩,
    ⟨"PrintMotd".toList, blockNoop "PrintMotd".toList 9⟩,
    ⟨"AcceptEnv".toList, blockNoop "AcceptEnv".toList 9⟩,
    ⟨"Protocol".toList, blockNoop "Protocol".toList 8⟩,
    ⟨loginGraceTime, blockLoginGraceTime⟩,
    ⟨permitEmptyPasswords, blockPermitEmptyPasswords⟩ ]

/-- The eleven directive keywords, in the order of the dispatcher's tests. -/
def directiveKeywords : List (List Char) :=
  [ "AuthorizedKeysFile".toList, "UsePrivilegeSeparation".toList, "Subsystem".toList,
    "ChallengeResponseAuthentication".toList, "UsePAM".toList, "X11Forwarding".toList,
    "PrintMotd".toList, "AcceptEnv".toList, "Protocol".toList, "LoginGraceTime".toList,
    "PermitEmptyPasswords".toList ]

/-- The bytes of a line that the load loop looks at: the string in `buf`
without its leading spaces. -/
def lineBody (buf : List Char) : List Char := trimLeading (buf.take (XSTRLEN buf))

/-- The load loop hands the line to the dispatcher: it is neither blank (fewer
than two bytes) nor a comment. -/
def isDispatched (buf : List Char) : Prop :=
  1 < (lineBody buf).length ∧ (lineBody buf).head? ≠ some '#'

instance (buf : List Char) : Decidable (isDispatched buf) := by
  unfold isDispatched; infer_instance


/-- Runs the blocks of a table one after the other on `(ret, conf)`. -/
def runBlocks (l : List Char) :
    List Directive → Int × WOLFSSHD_CONFIG → Option (Int × WOLFSSHD_CONFIG)
  | [], st => some st
  | d :: ds, st => (d.block l st).bind (runBlocks l ds)

/-- A keyword without NUL bytes. -/
def noNul (kw : List Char) : Prop := ∀ c ∈ kw, c ≠ '\x00'

instance (kw : List Char) : Decidable (noNul kw) := by unfold noNul; infer_instance

/-- The number that a string of decimal digits denotes, most significant
digit first. -/
def decimalValue (ds : List Char) : Nat :=
  Nat.ofDigits 10 ((ds.map (fun c => c.toNat - '0'.toNat)).reverse)

/-- The value `wolfSSHD_GetConfigInt` returns once it has cut the numeric text
`num` and fixed the multiplier: `ret = atol(num); if (ret > 0) ret = ret * mult;`. -/
def scaleParsed (num : List Char) (mult : Int) : Int :=
  if atol num > 0 then wrapLong (atol num * mult) else atol num

/-- The state in which `wolfSSHD_GetConfigInt(l + off, ..., isTime, heap)`
reaches `atol`: the text copied into `num` by `WMEMCPY(num, in + idx, sz)` and
the multiplier `mult`. The inner `none` stands for `ret != 0`, when nothing is
copied; the outer `none` is a fault. The steps before the copy are those of
`wolfSSHD_GetConfigInt`. -/
def configIntCut (l : List Char) (off : Nat) (isTime : Bool) :
    Option (Option (List Char × Int)) :=
  let inp := l.drop off
  let inSz := inp.length
  let mult0 : Int := 1
  /- remove leading white spaces -/
  let idx := skipSpaces inp
  let ret0 : Int := if idx = inSz then WS_BAD_ARGUMENT else 0
  /- remove trailing white spaces -/
  let sz0 : Int := if ret0 = 0 then (tokenScan (inp.drop (idx + 1)) : Int) + 1 else 0
  /- check for multipliers -/
  let step1 : Option (Int × Int) :=
    if isTime = true ∧ ret0 = 0 then
      (readAt l (off + (sz0 - 1 + idx))).map
        (fun c => if c = 'm' then (sz0 - 1, 60) else (sz0, mult0))
    else some (sz0, mult0)
  let step2 : Option (Int × Int) :=
    step1.bind (fun (sz1, mult1) =>
      if isTime = true ∧ ret0 = 0 then
        (readAt l (off + (sz1 - 1 + idx))).map
          (fun c => if c = 'h' then (sz1 - 1, 60 * 60) else (sz1, mult1))
      else some (sz1, mult1))
  step2.bind (fun (sz, mult) =>
    if ret0 = 0 then
      /- WMEMCPY(num, in + idx, sz) with a negative sz is a fault -/
      if sz < 0 then none
      else some (some ((inp.drop idx).take sz.toNat, mult))
    else some none)

/-- What `wolfSSHD_GetConfigInt` returns from the state `configIntCut` gives:
the scaled `atol` of the copied text, or the status `WS_BAD_ARGUMENT` that `ret`
holds when nothing was copied. -/
def finishCut (o : Option (List Char × Int)) : Int :=
  match o with
  | some (num, mult) => scaleParsed num mult
  | none => WS_BAD_ARGUMENT

/-! ## Notions used to state the properties -/

/-- The four keywords whose block tests `lSz > sz` before it compares: the
directives that carry a value. -/
def valueKeywords : List (List Char) :=
  [ "AuthorizedKeysFile".toList, "UsePrivilegeSeparation".toList, "LoginGraceTime".toList,
    "PermitEmptyPasswords".toList ]

/-- The seven keywords that are recognised and not implemented. -/
def noopKeywords : List (List Char) :=
  [ "Subsystem".toList, "ChallengeResponseAuthentication".toList, "UsePAM".toList,
    "X11Forwarding".toList, "PrintMotd".toList, "AcceptEnv".toList, "Protocol".toList ]

/-- The dispatcher in the words of the specification: "The first matching
entry's handler runs; if no entry matches, the line is rejected". An entry
matches a line that begins with its keyword; what runs is the entry's block of
the source, from the status `WS_BAD_ARGUMENT` the source starts with, and no
other entry is looked at afterwards. -/
def firstMatchDispatch (conf : WOLFSSHD_CONFIG) (l : List Char) :
    Option (Int × WOLFSSHD_CONFIG) :=
  match directiveTable.find? (fun d => decide (d.keyword <+: l)) with
  | some d => d.block l (WS_BAD_ARGUMENT, conf)
  | none => some (WS_BAD_ARGUMENT, conf)

/-- The object `c1` differs from `c` at most in the authorized-keys path, the
login-grace value and the empty-password flag. -/
def onlySettingsDiffer (c c1 : WOLFSSHD_CONFIG) : Prop :=
  c1 = { c with authKeysFile := c1.authKeysFile, loginTimer := c1.loginTimer,
                permitEmptyPasswords := c1.permitEmptyPasswords }

instance (c c1 : WOLFSSHD_CONFIG) : Decidable (onlySettingsDiffer c c1) := by
  unfold onlySettingsDiffer; infer_instance

/-- The lines on which the dispatcher compares a null string: the keyword
`UsePrivilegeSeparation` or `PermitEmptyPasswords` followed by one or more
spaces and nothing else. -/
def readsNull (l : List Char) : Prop :=
  (privilegeSeparation <+: l ∧ 22 < l.length ∧ ∀ c ∈ l.drop 22, c = ' ') ∨
    (permitEmptyPasswords <+: l ∧ 20 < l.length ∧ ∀ c ∈ l.drop 20, c = ' ')

instance (l : List Char) : Decidable (readsNull l) := by
  unfold readsNull; infer_instance

/-- The objects that can be reached from the one `wolfSSHD_NewConfig` builds by
calls of `wolfSSHD_ParseConfigLine` and `wolfSSHD_LoadSSHD` that return. -/
inductive Reachable : WOLFSSHD_CONFIG → Prop
  | fresh : Reachable freshConfig
  | parse (c c1 : WOLFSSHD_CONFIG) (l : List Char) (r : Int) :
      Reachable c → wolfSSHD_ParseConfigLine c l = some (r, c1) → Reachable c1
  | load (c c1 : WOLFSSHD_CONFIG) (lines : List (List Char)) (r : Int) :
      Reachable c → wolfSSHD_LoadSSHD (some c) (some lines) = some (r, some c1) → Reachable c1

/-! ## Sanity checks of the embedding on concrete inputs -/

example : XSTRNCMP "UsePAM yes".toList "UsePAM".toList 6 = 0 := by decide
example : XSTRNCMP "UsePA".toList "UsePAM".toList 6 ≠ 0 := by decide
example : atol " 42x".toList = 42 := by decide
example : atol "-42x".toList = -42 := by decide
example : atol "9223372036854775808".toList = 9223372036854775807 := by decide
example : atol "-9223372036854775809".toList = -9223372036854775808 := by decide
example : readAt "ab".toList 2 = some '\x00' := by decide
example : wolfSSHD_GetConfigInt "10".toList 0 true = some 10 := by decide
example : wolfSSHD_GetConfigInt "5m".toList 0 true = some 300 := by decide
example : wolfSSHD_GetConfigInt "2h".toList 0 true = some 7200 := by decide
example : wolfSSHD_GetConfigInt "0m".toList 0 true = some 0 := by decide
example : wolfSSHD_GetConfigInt "abc".toList 0 true = some 0 := by decide
example : wolfSSHD_GetConfigInt "m".toList 0 true = none := by decide
example : wolfSSHD_GetConfigInt "LoginGraceTime 5hm\n".toList 14 true = some 18000 := by decide
example : wolfSSHD_GetConfigInt "LoginGraceTime 9223372036854775807m\n".toList 14 true =
    some (-60) := by decide
example : configIntCut "5mhm".toList 0 true = some (some ("5m".toList, 3600)) := by decide
example : wolfSSHD_GetConfigInt "5mhm".toList 0 true = some 18000 := by decide
example : wolfSSHD_CreateString none "   /etc/keys".toList = (0, some "/etc/keys".toList) := by decide
example : wolfSSHD_CreateString none "   ".toList = (-1002, none) := by decide
example : (wolfSSHD_ParseConfigLine freshConfig "UsePrivilegeSeparation foo\n".toList).map (·.1) = some 0 := by decide
example : (wolfSSHD_ParseConfigLine freshConfig "UsePrivilegeSeparation ".toList) = none := by decide
example : (wolfSSHD_ParseConfigLine freshConfig "UsePAM".toList).map (·.1) = some 0 := by decide
example : ((wolfSSHD_LoadSSHD (wolfSSHD_NewConfig 0) (some ["LoginGraceTime 2m\n".toList])).map (fun p => (p.1, wolfSSHD_ConfigGetOption p.2 WOLFSSHD_GRACE_LOGIN_TIME))) = some (0, some 120) := by decide
example : ((wolfSSHD_LoadSSHD (wolfSSHD_NewConfig 0) (some ["PermitEmptyPasswords yes\n".toList, "PermitEmptyPasswords no\n".toList])).map (fun p => (p.1, wolfSSHD_ConfigGetOption p.2 WOLFSSHD_EMPTY_PASSWORD))) = some (0, some 1) := by decide

/-! ## String comparison and the dispatcher chain -/

theorem toNat_sub_ne_zero (c1 c2 : Char) (h : c1 ≠ c2) : (c1.toNat : Int) - (c2.toNat : Int) ≠ 0 := by
  intro h0
  apply h
  have : c1.toNat = c2.toNat := by omega
  exact Char.ext (UInt32.ext (by simpa [Char.toNat, UInt32.toNat] using this))

theorem XSTRNCMP_eq_zero_iff (kw : List Char) (hk : noNul kw) (l : List Char) :
    XSTRNCMP l kw kw.length = 0 ↔ kw <+: l := by
  induction kw generalizing l with
  | nil => simp [XSTRNCMP]
  | cons k kw ih =>
    have hk0 : k ≠ '\x00' := hk k (by simp)
    have hk' : noNul kw := fun c hc => hk c (by simp [hc])
    cases l with
    | nil =>
      simp only [List.length_cons, XSTRNCMP, List.headD_nil, List.headD_cons]
      rw [if_pos (Ne.symm hk0)]
      have := toNat_sub_ne_zero _ _ (Ne.symm hk0)
      have h0 : ('\x00' : Char).toNat = 0 := rfl
      rw [h0] at this ⊢
      simp only [List.nil_prefix, List.prefix_nil, reduceCtorEq, iff_false]
      exact this
    | cons c t =>
      simp only [List.length_cons, XSTRNCMP, List.headD_cons, List.tail_cons]
      by_cases hc : c = k
      · subst hc
        simp [hk0, ih hk' t, List.cons_prefix_cons]
      · have := toNat_sub_ne_zero _ _ hc
        simp only [ne_eq, hc, not_false_eq_true, if_true, this, List.cons_prefix_cons, false_iff]
        exact fun h => hc h.1.symm

theorem XSTRLEN_eq_length (kw : List Char) (hk : noNul kw) : XSTRLEN kw = kw.length := by
  induction kw with
  | nil => rfl
  | cons k kw ih =>
    have hk0 : k ≠ '\x00' := hk k (by simp)
    simp [XSTRLEN, hk0, ih (fun c hc => hk c (by simp [hc]))]

theorem parse_eq_runBlocks (conf : WOLFSSHD_CONFIG) (l : List Char) :
    wolfSSHD_ParseConfigLine conf l = runBlocks l directiveTable (WS_BAD_ARGUMENT, conf) := by
  simp only [wolfSSHD_ParseConfigLine, directiveTable, runBlocks, Option.bind_eq_bind,
    Option.bind_some]

theorem strncmp_kw (kw : List Char) (n : Nat) (hk : noNul kw) (hn : kw.length = n)
    (l : List Char) : XSTRNCMP l kw n = 0 ↔ kw <+: l := by
  subst hn
  exact XSTRNCMP_eq_zero_iff kw hk l

theorem blockNoop_skip (kw : List Char) (n : Nat) (hk : noNul kw) (hn : kw.length = n)
    (l : List Char) (st : Int × WOLFSSHD_CONFIG) (h : ¬ kw <+: l) :
    blockNoop kw n l st = some st := by
  simp [blockNoop, strncmp_kw kw n hk hn, h]

theorem blockNoop_hit (kw : List Char) (n : Nat) (hk : noNul kw) (hn : kw.length = n)
    (l : List Char) (st : Int × WOLFSSHD_CONFIG) (h : kw <+: l) :
    blockNoop kw n l st = some (WS_SUCCESS, st.2) := by
  simp [blockNoop, strncmp_kw kw n hk hn, h]

theorem len_authKeyFile : XSTRLEN authKeyFile = 18 := by decide
theorem len_privilegeSeparation : XSTRLEN privilegeSeparation = 22 := by decide
theorem len_loginGraceTime : XSTRLEN loginGraceTime = 14 := by decide
theorem len_permitEmptyPasswords : XSTRLEN permitEmptyPasswords = 20 := by decide

theorem blockAuthKeysFile_skip (l : List Char) (st : Int × WOLFSSHD_CONFIG)
    (h : ¬ authKeyFile <+: l) : blockAuthKeysFile l st = some st := by
  simp [blockAuthKeysFile, len_authKeyFile, strncmp_kw authKeyFile 18 (by decide) (by decide), h]

theorem blockPrivilegeSeparation_skip (l : List Char) (st : Int × WOLFSSHD_CONFIG)
    (h : ¬ privilegeSeparation <+: l) : blockPrivilegeSeparation l st = some st := by
  simp [blockPrivilegeSeparation, len_privilegeSeparation, strncmp_kw privilegeSeparation 22 (by decide) (by decide), h]

theorem blockLoginGraceTime_skip (l : List Char) (st : Int × WOLFSSHD_CONFIG)
    (h : ¬ loginGraceTime <+: l) : blockLoginGraceTime l st = some st := by
  simp [blockLoginGraceTime, len_loginGraceTime, strncmp_kw loginGraceTime 14 (by decide) (by decide), h]

theorem blockPermitEmptyPasswords_skip (l : List Char) (st : Int × WOLFSSHD_CONFIG)
    (h : ¬ permitEmptyPasswords <+: l) : blockPermitEmptyPasswords l st = some st := by
  simp [blockPermitEmptyPasswords, len_permitEmptyPasswords, strncmp_kw permitEmptyPasswords 20 (by decide) (by decide), h]

/-- Every block of the table leaves `(ret, conf)` alone on a line that does
not begin with its keyword. -/
theorem table_skip (l : List Char) (st : Int × WOLFSSHD_CONFIG) :
    ∀ d ∈ directiveTable, ¬ d.keyword <+: l → d.block l st = some st := by
  intro d hd h
  simp only [directiveTable, List.mem_cons, List.mem_singleton, List.not_mem_nil, or_false] at hd
  rcases hd with rfl | rfl | rfl | rfl | rfl | rfl | rfl | rfl | rfl | rfl | rfl
  · exact blockAuthKeysFile_skip l st h
  · exact blockPrivilegeSeparation_skip l st h
  · exact blockNoop_skip _ _ (by decide) (by decide) l st h
  · exact blockNoop_skip _ _ (by decide) (by decide) l st h
  · exact blockNoop_skip _ _ (by decide) (by decide) l st h
  · exact blockNoop_skip _ _ (by decide) (by decide) l st h
  · exact blockNoop_skip _ _ (by decide) (by decide) l st h
  · exact blockNoop_skip _ _ (by decide) (by decide) l st h
  · exact blockNoop_skip _ _ (by decide) (by decide) l st h
  · exact blockLoginGraceTime_skip l st h
  · exact blockPermitEmptyPasswords_skip l st h

theorem runBlocks_all_skip (l : List Char) (ds : List Directive)
    (h : ∀ d ∈ ds, ∀ st, d.block l st = some st) (st : Int × WOLFSSHD_CONFIG) :
    runBlocks l ds st = some st := by
  induction ds generalizing st with
  | nil => rfl
  | cons d ds ih =>
    have hd := h d (by simp) st
    simp only [runBlocks, hd, Option.some_bind]
    exact ih (fun e he => h e (by simp [he])) st

theorem runBlocks_one (l : List Char) (pre post : List Directive) (d : Directive)
    (hpre : ∀ e ∈ pre, ∀ st, e.block l st = some st)
    (hpost : ∀ e ∈ post, ∀ st, e.block l st = some st) (st : Int × WOLFSSHD_CONFIG) :
    runBlocks l (pre ++ d :: post) st = d.block l st := by
  induction pre generalizing st with
  | nil =>
    simp only [List.nil_append, runBlocks]
    cases hb : d.block l st with
    | none => rfl
    | some st1 => simp [runBlocks_all_skip l post hpost st1]
  | cons e pre ih =>
    have he := hpre e (by simp) st
    simp only [List.cons_append, runBlocks, he, Option.some_bind]
    exact ih (fun e' he' => hpre e' (by simp [he'])) st

theorem keywords_eq_table : directiveTable.map Directive.keyword = directiveKeywords := by
  decide

theorem mem_keywords_of_mem_table {d : Directive} (hd : d ∈ directiveTable) :
    d.keyword ∈ directiveKeywords := by
  rw [← keywords_eq_table]; exact List.mem_map_of_mem _ hd

theorem keywords_exclusive :
    ∀ a ∈ directiveKeywords, ∀ b ∈ directiveKeywords, a <+: b → a = b := by
  decide

theorem keywords_nodup : directiveKeywords.Nodup := by
  decide

/-- A line begins with at most one of the eleven keywords. -/
theorem keyword_unique {a b l : List Char} (ha : a ∈ directiveKeywords)
    (hb : b ∈ directiveKeywords) (hal : a <+: l) (hbl : b <+: l) : a = b := by
  rcases List.prefix_or_prefix_of_prefix hal hbl with h | h
  · exact keywords_exclusive a ha b hb h
  · exact (keywords_exclusive b hb a ha h).symm

/-- On a line that begins with the keyword of a table entry, the chain of
blocks does what that entry's block alone does. -/
theorem parse_of_keyword (conf : WOLFSSHD_CONFIG) (l : List Char) (d : Directive)
    (hd : d ∈ directiveTable) (h : d.keyword <+: l) :
    wolfSSHD_ParseConfigLine conf l = d.block l (WS_BAD_ARGUMENT, conf) := by
  rw [parse_eq_runBlocks]
  obtain ⟨pre, post, hsplit⟩ := List.append_of_mem hd
  have hnd : ((pre ++ d :: post).map Directive.keyword).Nodup := by
    rw [← hsplit, keywords_eq_table]; exact keywords_nodup
  rw [List.map_append, List.map_cons, List.nodup_append] at hnd
  obtain ⟨_, hnd2, hdisj⟩ := hnd
  rw [List.nodup_cons] at hnd2
  have hmem : ∀ e, e ∈ pre ∨ e ∈ post → e ∈ directiveTable := by
    intro e he
    rw [hsplit]
    rcases he with he | he
    · exact List.mem_append_left _ he
    · exact List.mem_append_right _ (List.mem_cons_of_mem _ he)
  have hskip : ∀ e, e ∈ pre ∨ e ∈ post → ∀ st, e.block l st = some st := by
    intro e he st
    apply table_skip l st e (hmem e he)
    intro hel
    have hk : e.keyword = d.keyword :=
      keyword_unique (mem_keywords_of_mem_table (hmem e he)) (mem_keywords_of_mem_table hd) hel h
    rcases he with he | he
    · exact hdisj (List.mem_map_of_mem _ he) (by rw [hk]; simp)
    · exact hnd2.1 (by rw [← hk]; exact List.mem_map_of_mem _ he)
  rw [hsplit]
  exact runBlocks_one l pre post d (fun e he => hskip e (Or.inl he))
    (fun e he => hskip e (Or.inr he)) _

/-- On a line that begins with none of the eleven keywords, no block acts. -/
theorem parse_of_no_keyword (conf : WOLFSSHD_CONFIG) (l : List Char)
    (h : ∀ kw ∈ directiveKeywords, ¬ kw <+: l) :
    wolfSSHD_ParseConfigLine conf l = some (WS_BAD_ARGUMENT, conf) := by
  rw [parse_eq_runBlocks]
  apply runBlocks_all_skip
  intro d hd st
  exact table_skip l st d hd (h _ (mem_keywords_of_mem_table hd))

/-! ## The trimmed-string extractor -/

theorem skipSpaces_le (inp : List Char) : skipSpaces inp ≤ inp.length := by
  induction inp with
  | nil => simp [skipSpaces]
  | cons c t ih =>
    by_cases hc : c = ' ' <;> simp [skipSpaces, hc]
    omega

theorem skipSpaces_eq_length_iff (inp : List Char) :
    skipSpaces inp = inp.length ↔ ∀ c ∈ inp, c = ' ' := by
  induction inp with
  | nil => simp [skipSpaces]
  | cons c t ih =>
    by_cases hc : c = ' '
    · simp [skipSpaces, hc, ih]
    · simp [skipSpaces, hc]

theorem drop_skipSpaces (inp : List Char) :
    inp.drop (skipSpaces inp) = inp.dropWhile (fun c => decide (c = ' ')) := by
  induction inp with
  | nil => simp [skipSpaces]
  | cons c t ih =>
    by_cases hc : c = ' '
    · simp [skipSpaces, hc, ih, List.dropWhile_cons]
    · simp [skipSpaces, hc, List.dropWhile_cons]

theorem skipSpaces_replicate_append (k : Nat) (t : List Char) (ht : t.head? ≠ some ' ') :
    skipSpaces (List.replicate k ' ' ++ t) = k := by
  induction k with
  | zero =>
    cases t with
    | nil => rfl
    | cons c t =>
      have hc : c ≠ ' ' := by simpa using ht
      simp [skipSpaces, hc]
  | succ k ih => simp [List.replicate_succ, skipSpaces, ih]

theorem createString_eq (out : Option (List Char)) (inp : List Char) :
    wolfSSHD_CreateString out inp =
      if ∀ c ∈ inp, c = ' ' then (WS_BAD_ARGUMENT, out)
      else (WS_SUCCESS, some (inp.dropWhile (fun c => decide (c = ' ')))) := by
  unfold wolfSSHD_CreateString
  by_cases h : ∀ c ∈ inp, c = ' '
  · have h1 := (skipSpaces_eq_length_iff inp).2 h
    rw [if_pos h]
    simp [h1, WS_BAD_ARGUMENT, WS_SUCCESS]
  · have h1 : skipSpaces inp ≠ inp.length := fun e => h ((skipSpaces_eq_length_iff inp).1 e)
    rw [if_neg h]
    simp [h1, drop_skipSpaces]

/-! ## What each block does on a line that begins with its keyword -/

theorem bad_ne_success : WS_BAD_ARGUMENT ≠ WS_SUCCESS := by decide

theorem blockAuthKeysFile_hit (l : List Char) (st : Int × WOLFSSHD_CONFIG)
    (h : authKeyFile <+: l) :
    blockAuthKeysFile l st =
      if l.length ≤ 18 then some st
      else if ∀ c ∈ l.drop 18, c = ' ' then some (WS_BAD_ARGUMENT, st.2)
      else some (WS_SUCCESS,
        { st.2 with authKeysFile := some ((l.drop 18).dropWhile (fun c => decide (c = ' '))) }) := by
  simp only [blockAuthKeysFile, len_authKeyFile,
    strncmp_kw authKeyFile 18 (by decide) (by decide), h, and_true, createString_eq]
  by_cases h1 : l.length ≤ 18
  · simp [h1, Nat.not_lt.2 h1]
  · by_cases h2 : ∀ c ∈ l.drop 18, c = ' '
    · simp only [h1, if_false, if_pos h2, if_pos (Nat.lt_of_not_le h1), gt_iff_lt]
      simp [bad_ne_success]
    · simp only [h1, if_false, if_neg h2, if_pos (Nat.lt_of_not_le h1), gt_iff_lt]
      simp [wolfSSHD_SetAuthKeysFile]

theorem blockPrivilegeSeparation_hit (l : List Char) (st : Int × WOLFSSHD_CONFIG)
    (h : privilegeSeparation <+: l) :
    blockPrivilegeSeparation l st =
      if l.length ≤ 22 then some st
      else if ∀ c ∈ l.drop 22, c = ' ' then none
      else some (WS_SUCCESS, st.2) := by
  simp only [blockPrivilegeSeparation, len_privilegeSeparation,
    strncmp_kw privilegeSeparation 22 (by decide) (by decide), h, and_true, createString_eq]
  by_cases h1 : l.length ≤ 22
  · simp [h1, Nat.not_lt.2 h1]
  · by_cases h2 : ∀ c ∈ l.drop 22, c = ' '
    · simp only [h1, if_false, if_pos h2, if_pos (Nat.lt_of_not_le h1), gt_iff_lt]
      simp [XSTRNCMP_ptr]
    · simp only [h1, if_false, if_neg h2, if_pos (Nat.lt_of_not_le h1), gt_iff_lt]
      simp [XSTRNCMP_ptr]

theorem blockLoginGraceTime_hit (l : List Char) (st : Int × WOLFSSHD_CONFIG)
    (h : loginGraceTime <+: l) :
    blockLoginGraceTime l st =
      if l.length ≤ 14 then some st
      else (wolfSSHD_GetConfigInt l 14 true).bind (fun num =>
        if num < 0 then some st else some (WS_SUCCESS, { st.2 with loginTimer := num })) := by
  simp only [blockLoginGraceTime, len_loginGraceTime,
    strncmp_kw loginGraceTime 14 (by decide) (by decide), h, and_true]
  by_cases h1 : l.length ≤ 14
  · simp [h1, Nat.not_lt.2 h1]
  · simp only [h1, if_false, if_pos (Nat.lt_of_not_le h1), gt_iff_lt]
    rfl

theorem blockPermitEmptyPasswords_hit (l : List Char) (st : Int × WOLFSSHD_CONFIG)
    (h : permitEmptyPasswords <+: l) :
    blockPermitEmptyPasswords l st =
      if l.length ≤ 20 then some st
      else if ∀ c ∈ l.drop 20, c = ' ' then none
      else some (WS_SUCCESS,
        if "yes".toList <+: (l.drop 20).dropWhile (fun c => decide (c = ' ')) then
          { st.2 with permitEmptyPasswords := true }
        else st.2) := by
  simp only [blockPermitEmptyPasswords, len_permitEmptyPasswords,
    strncmp_kw permitEmptyPasswords 20 (by decide) (by decide), h, and_true, createString_eq]
  by_cases h1 : l.length ≤ 20
  · simp [h1, Nat.not_lt.2 h1]
  · by_cases h2 : ∀ c ∈ l.drop 20, c = ' '
    · simp only [h1, if_false, if_pos h2, if_pos (Nat.lt_of_not_le h1), gt_iff_lt]
      simp [XSTRNCMP_ptr]
    · simp only [h1, if_false, if_neg h2, if_pos (Nat.lt_of_not_le h1), gt_iff_lt]
      simp only [XSTRNCMP_ptr, Option.bind_eq_bind, Option.some_bind,
        strncmp_kw "yes".toList 3 (by decide) (by decide)]
      by_cases h3 : "yes".toList <+: (l.drop 20).dropWhile (fun c => decide (c = ' '))
      · simp only [h3, if_true, ite_self]
      · simp only [h3, if_false, ite_self]

/-! ## A rejected line leaves the object alone -/

theorem table_reject_unchanged (l : List Char) (conf : WOLFSSHD_CONFIG) :
    ∀ d ∈ directiveTable, ∀ r c, d.block l (WS_BAD_ARGUMENT, conf) = some (r, c) →
      r ≠ WS_SUCCESS → c = conf := by
  intro d hd r c hrun hr
  by_cases hk : d.keyword <+: l
  swap
  · rw [table_skip l _ d hd hk] at hrun
    simp at hrun; exact hrun.2.symm
  simp only [directiveTable, List.mem_cons, List.mem_singleton, List.not_mem_nil, or_false] at hd
  rcases hd with rfl | rfl | rfl | rfl | rfl | rfl | rfl | rfl | rfl | rfl | rfl
  all_goals dsimp only at hrun hk
  · rw [blockAuthKeysFile_hit l _ hk] at hrun
    split at hrun
    · simp at hrun; exact hrun.2.symm
    · split at hrun
      · simp at hrun; exact hrun.2.symm
      · simp at hrun; exact absurd hrun.1.symm hr
  · rw [blockPrivilegeSeparation_hit l _ hk] at hrun
    split at hrun
    · simp at hrun; exact hrun.2.symm
    · split at hrun
      · simp at hrun
      · simp at hrun; exact hrun.2.symm
  · rw [blockNoop_hit _ _ (by decide) (by decide) l _ hk] at hrun
    simp at hrun; exact hrun.2.symm
  · rw [blockNoop_hit _ _ (by decide) (by decide) l _ hk] at hrun
    simp at hrun; exact hrun.2.symm
  · rw [blockNoop_hit _ _ (by decide) (by decide) l _ hk] at hrun
    simp at hrun; exact hrun.2.symm
  · rw [blockNoop_hit _ _ (by decide) (by decide) l _ hk] at hrun
    simp at hrun; exact hrun.2.symm
  · rw [blockNoop_hit _ _ (by decide) (by decide) l _ hk] at hrun
    simp at hrun; exact hrun.2.symm
  · rw [blockNoop_hit _ _ (by decide) (by decide) l _ hk] at hrun
    simp at hrun; exact hrun.2.symm
  · rw [blockNoop_hit _ _ (by decide) (by decide) l _ hk] at hrun
    simp at hrun; exact hrun.2.symm
  · rw [blockLoginGraceTime_hit l _ hk] at hrun
    split at hrun
    · simp at hrun; exact hrun.2.symm
    · cases hnum : wolfSSHD_GetConfigInt l 14 true with
      | none => simp [hnum] at hrun
      | some num =>
        simp only [hnum, Option.some_bind] at hrun
        split at hrun
        · simp at hrun; exact hrun.2.symm
        · simp at hrun; exact absurd hrun.1.symm hr
  · rw [blockPermitEmptyPasswords_hit l _ hk] at hrun
    split at hrun
    · simp at hrun; exact hrun.2.symm
    · split at hrun
      · simp at hrun
      · simp at hrun; exact absurd hrun.1.symm hr

/-- A line that the dispatcher rejects leaves every field as it was. -/
theorem parse_reject_unchanged (conf : WOLFSSHD_CONFIG) (l : List Char) (r : Int)
    (c : WOLFSSHD_CONFIG) (h : wolfSSHD_ParseConfigLine conf l = some (r, c))
    (hr : r ≠ WS_SUCCESS) : c = conf := by
  by_cases hk : ∃ d ∈ directiveTable, d.keyword <+: l
  · obtain ⟨d, hd, hdl⟩ := hk
    rw [parse_of_keyword conf l d hd hdl] at h
    exact table_reject_unchanged l conf d hd r c h hr
  · have hnone : runBlocks l directiveTable (WS_BAD_ARGUMENT, conf) =
        some (WS_BAD_ARGUMENT, conf) := by
      apply runBlocks_all_skip
      intro d hd st
      exact table_skip l st d hd (fun hdl => hk ⟨d, hd, hdl⟩)
    rw [parse_eq_runBlocks, hnone] at h
    simp at h; exact h.2.symm

/-! ## The load loop -/

theorem loadLoop_skip (conf : WOLFSSHD_CONFIG) (ret : Int) (buf : List Char)
    (rest : List (List Char)) (h : ¬ isDispatched buf) :
    loadLoop conf ret (buf :: rest) = loadLoop conf ret rest := by
  unfold isDispatched lineBody at h
  rw [loadLoop]
  by_cases h1 : (trimLeading (buf.take (XSTRLEN buf))).length ≤ 1
  · simp only [h1, if_true]
  · have h2 : (trimLeading (buf.take (XSTRLEN buf))).head? = some '#' := by
      by_contra h2
      exact h ⟨Nat.lt_of_not_le h1, h2⟩
    simp only [h1, if_false, h2, if_true]

theorem loadLoop_dispatch (conf : WOLFSSHD_CONFIG) (ret : Int) (buf : List Char)
    (rest : List (List Char)) (h : isDispatched buf) :
    loadLoop conf ret (buf :: rest) =
      match wolfSSHD_ParseConfigLine conf (lineBody buf) with
      | none => none
      | some (r, conf1) => if r ≠ WS_SUCCESS then some (r, conf1) else loadLoop conf1 r rest := by
  unfold isDispatched lineBody at h
  rw [loadLoop]
  simp only [Nat.not_le.2 h.1, if_false, h.2, lineBody]

/-- Lines appended to a prefix that loads without a rejection are loaded from
the object the prefix leaves. -/
theorem loadLoop_append (pre rest : List (List Char)) (conf c1 : WOLFSSHD_CONFIG)
    (h : loadLoop conf WS_SUCCESS pre = some (WS_SUCCESS, c1)) :
    loadLoop conf WS_SUCCESS (pre ++ rest) = loadLoop c1 WS_SUCCESS rest := by
  induction pre generalizing conf with
  | nil =>
    simp only [loadLoop, Option.some.injEq, Prod.mk.injEq, true_and] at h
    simp [h]
  | cons buf pre ih =>
    by_cases hd : isDispatched buf
    · rw [loadLoop_dispatch _ _ _ _ hd] at h
      rw [List.cons_append, loadLoop_dispatch _ _ _ _ hd]
      cases hp : wolfSSHD_ParseConfigLine conf (lineBody buf) with
      | none => simp [hp] at h
      | some p =>
        obtain ⟨r, conf1⟩ := p
        simp only [hp] at h ⊢
        by_cases hr : r = WS_SUCCESS
        · subst hr
          simp only [ne_eq, not_true_eq_false, if_false] at h ⊢
          exact ih conf1 h
        · simp only [ne_eq, hr, not_false_eq_true, if_true, Option.some.injEq,
            Prod.mk.injEq] at h
          exact h.1.elim
    · rw [loadLoop_skip _ _ _ _ hd] at h
      rw [List.cons_append, loadLoop_skip _ _ _ _ hd]
      exact ih conf h

/-! ## The dispatcher on a line that begins with a given keyword -/

theorem parse_authKeyFile (conf : WOLFSSHD_CONFIG) (l : List Char) (h : authKeyFile <+: l) :
    wolfSSHD_ParseConfigLine conf l = blockAuthKeysFile l (WS_BAD_ARGUMENT, conf) :=
  parse_of_keyword conf l ⟨authKeyFile, blockAuthKeysFile⟩ (by simp [directiveTable]) h

theorem parse_privilegeSeparation (conf : WOLFSSHD_CONFIG) (l : List Char)
    (h : privilegeSeparation <+: l) :
    wolfSSHD_ParseConfigLine conf l = blockPrivilegeSeparation l (WS_BAD_ARGUMENT, conf) :=
  parse_of_keyword conf l ⟨privilegeSeparation, blockPrivilegeSeparation⟩
    (by simp [directiveTable]) h

theorem parse_loginGraceTime (conf : WOLFSSHD_CONFIG) (l : List Char)
    (h : loginGraceTime <+: l) :
    wolfSSHD_ParseConfigLine conf l = blockLoginGraceTime l (WS_BAD_ARGUMENT, conf) :=
  parse_of_keyword conf l ⟨loginGraceTime, blockLoginGraceTime⟩ (by simp [directiveTable]) h

theorem parse_permitEmptyPasswords (conf : WOLFSSHD_CONFIG) (l : List Char)
    (h : permitEmptyPasswords <+: l) :
    wolfSSHD_ParseConfigLine conf l = blockPermitEmptyPasswords l (WS_BAD_ARGUMENT, conf) :=
  parse_of_keyword conf l ⟨permitEmptyPasswords, blockPermitEmptyPasswords⟩
    (by simp [directiveTable]) h

/-! ## The duration extractor -/

theorem tokenScan_append (a rest : List Char) (ha : ∀ c ∈ a, c ≠ ' ' ∧ c ≠ '\n')
    (hrest : rest = [] ∨ rest.head? = some ' ' ∨ rest.head? = some '\n') :
    tokenScan (a ++ rest) = a.length := by
  induction a with
  | nil =>
    rcases hrest with rfl | h | h
    · rfl
    · cases rest with
      | nil => simp at h
      | cons c t =>
        have hc : c = ' ' := by simpa using h
        simp [tokenScan, hc]
    · cases rest with
      | nil => simp at h
      | cons c t =>
        have hc : c = '\n' := by simpa using h
        simp [tokenScan, hc]
  | cons c t ih =>
    have hc := ha c (by simp)
    simp [tokenScan, hc.1, hc.2, ih (fun x hx => ha x (by simp [hx]))]

/-- Reading the byte of the buffer that sits at a known place of the span. -/
theorem readAt_span (l : List Char) (off : Nat) (a b : List Char) (c : Char)
    (h : l.drop off = a ++ c :: b) (i : Int) (hi : i = (off : Int) + (a.length : Int)) :
    readAt l i = some c := by
  have h0 : ¬ i < 0 := by omega
  have hn : i.toNat = off + a.length := by omega
  have hget : (l.drop off)[a.length]? = some c := by
    rw [h, List.getElem?_append_right (Nat.le_refl _)]; simp
  rw [List.getElem?_drop] at hget
  have hlt : off + a.length < l.length := by
    by_contra hge
    rw [List.getElem?_eq_none (by omega)] at hget
    exact absurd hget (by simp)
  simp only [readAt, h0, if_false, hn]
  rw [List.getElem?_append_left hlt]
  exact hget

theorem isdigit_ne (c : Char) (h : isdigit c = true) :
    c ≠ ' ' ∧ c ≠ '\n' ∧ c ≠ 'm' ∧ c ≠ 'h' ∧ c ≠ '-' ∧ c ≠ '+' ∧ isspace c = false := by
  simp only [isdigit, Bool.and_eq_true, decide_eq_true_eq] at h
  have h1 : '0'.toNat ≤ c.toNat := h.1
  have h2 : c.toNat ≤ '9'.toNat := h.2
  have e0 : '0'.toNat = 48 := rfl
  have e9 : '9'.toNat = 57 := rfl
  rw [e0] at h1
  rw [e9] at h2
  have key : ∀ d : Char, (d.toNat < 48 ∨ 57 < d.toNat) → c ≠ d := by
    intro d hd e
    subst e
    omega
  have hsp := key ' ' (Or.inl (by decide))
  have hnl := key '\n' (Or.inl (by decide))
  have htab := key '\t' (Or.inl (by decide))
  have hvt := key '\x0b' (Or.inl (by decide))
  have hff := key '\x0c' (Or.inl (by decide))
  have hcr := key '\r' (Or.inl (by decide))
  refine ⟨hsp, hnl, key 'm' (Or.inr (by decide)), key 'h' (Or.inr (by decide)),
    key '-' (Or.inl (by decide)), key '+' (Or.inl (by decide)), ?_⟩
  simp [isspace, hsp, hnl, htab, hvt, hff, hcr]

theorem decimalValue_cons (c : Char) (t : List Char) :
    decimalValue (c :: t) = (c.toNat - '0'.toNat) * 10 ^ t.length + decimalValue t := by
  simp only [decimalValue, List.map_cons, List.reverse_cons, Nat.ofDigits_append,
    List.length_reverse, List.length_map, Nat.ofDigits_singleton]
  ring

theorem atolDigits_eq (ds : List Char) (h : ∀ c ∈ ds, isdigit c = true) (acc : Nat) :
    atolDigits ds acc = acc * 10 ^ ds.length + decimalValue ds := by
  induction ds generalizing acc with
  | nil => simp [atolDigits, decimalValue]
  | cons c t ih =>
    have hc := h c (by simp)
    rw [atolDigits, if_pos hc, ih (fun x hx => h x (by simp [hx])), decimalValue_cons,
      List.length_cons]
    ring

theorem atol_digits (ds : List Char) (hne : ds ≠ []) (h : ∀ c ∈ ds, isdigit c = true) :
    atol ds = saturateLong (decimalValue ds) := by
  cases ds with
  | nil => exact absurd rfl hne
  | cons c t =>
    have hc := isdigit_ne c (h c (by simp))
    have hd : List.dropWhile isspace (c :: t) = c :: t := by
      simp [List.dropWhile_cons, hc.2.2.2.2.2.2]
    have he := atolDigits_eq (c :: t) h 0
    unfold atol
    rw [hd]
    split
    · rename_i heq; simp at heq; exact absurd heq.1 hc.2.2.2.2.1
    · rename_i heq; simp at heq; exact absurd heq.1 hc.2.2.2.2.2.1
    · rw [he]; simp

theorem wrapLong_of_fits (x : Int) (h0 : 0 ≤ x) (h1 : x < 2 ^ 63) : wrapLong x = x := by
  unfold wrapLong
  omega

theorem saturateLong_of_fits (x : Int) (h0 : 0 ≤ x) (h1 : x < 2 ^ 63) : saturateLong x = x := by
  unfold saturateLong
  rw [if_neg (by omega), if_neg (by omega)]

/-- The token scan of `wolfSSHD_GetConfigInt` on a span that is `k` spaces, a
token and a rest that is empty or begins with a space or a newline. -/
theorem getConfigInt_scan (inp : List Char) (k : Nat) (t0 : Char) (tok rest : List Char)
    (hspan : inp = List.replicate k ' ' ++ (t0 :: tok) ++ rest) (h0 : t0 ≠ ' ')
    (htok : ∀ c ∈ tok, c ≠ ' ' ∧ c ≠ '\n')
    (hrest : rest = [] ∨ rest.head? = some ' ' ∨ rest.head? = some '\n') :
    skipSpaces inp = k ∧ k ≠ inp.length ∧ tokenScan (inp.drop (k + 1)) = tok.length ∧
      inp.drop k = (t0 :: tok) ++ rest := by
  subst hspan
  have hk : (List.replicate k ' ').length = k := List.length_replicate _ _
  refine ⟨?_, ?_, ?_, ?_⟩
  · rw [List.append_assoc]
    exact skipSpaces_replicate_append k _ (by simp [h0])
  · simp
  · have hd : (List.replicate k ' ' ++ (t0 :: tok) ++ rest).drop (k + 1) = tok ++ rest := by
      rw [List.append_assoc, List.drop_append_eq_append_drop]
      simp [hk]
    rw [hd]
    exact tokenScan_append tok rest htok hrest
  · rw [List.append_assoc, List.drop_append_eq_append_drop]
    simp [hk]

/-- The duration extractor on a token whose last byte is not `m`: one `h` is
cut, nothing else. -/
theorem getConfigInt_last_not_m (l : List Char) (off k : Nat) (tb rest : List Char) (c1 : Char)
    (hspan : l.drop off = List.replicate k ' ' ++ (tb ++ [c1]) ++ rest)
    (hne : tb ++ [c1] ≠ []) (h0 : (tb ++ [c1]).head? ≠ some ' ')
    (htok : ∀ c ∈ (tb ++ [c1]).tail, c ≠ ' ' ∧ c ≠ '\n')
    (hrest : rest = [] ∨ rest.head? = some ' ' ∨ rest.head? = some '\n')
    (hm : c1 ≠ 'm') :
    wolfSSHD_GetConfigInt l off true =
      if c1 = 'h' then some (scaleParsed tb (60 * 60)) else some (scaleParsed (tb ++ [c1]) 1) := by
  obtain ⟨t0, tok, htk⟩ := List.exists_cons_of_ne_nil hne
  rw [htk] at h0 htok
  have hscan := getConfigInt_scan (l.drop off) k t0 tok rest (by rw [hspan, htk])
    (by simpa using h0) (by simpa using htok) hrest
  obtain ⟨hidx, hsz, htscan, hdrop⟩ := hscan
  have hlen : tok.length = tb.length := by
    have := congrArg List.length htk
    simp at this
    omega
  have hread : readAt l ((off : Int) + ((tb.length : Int) + 1 - 1 + (k : Int))) = some c1 := by
    apply readAt_span l off (List.replicate k ' ' ++ tb) rest c1
    · rw [hspan]; simp
    · simp; omega
  unfold wolfSSHD_GetConfigInt
  simp only [hidx, hsz, if_false, htscan, hlen, true_and, if_true, hread, Option.map_some', hm,
    Option.some_bind, WS_BAD_ARGUMENT, hdrop, ← htk]
  have htake1 : List.take (tb.length + 1) (tb ++ [c1] ++ rest) = tb ++ [c1] := by
    rw [List.take_append_eq_append_take]; simp
  have htake0 : List.take tb.length (tb ++ [c1] ++ rest) = tb := by
    rw [List.append_assoc, List.take_append_eq_append_take]; simp
  have hnn : ¬ ((tb.length : Int) + 1 < 0) := by omega
  have hnn0 : ¬ ((tb.length : Int) + 1 - 1 < 0) := by omega
  have ht1 : ((tb.length : Int) + 1).toNat = tb.length + 1 := by omega
  have ht0 : ((tb.length : Int) + 1 - 1).toNat = tb.length := by omega
  by_cases hh : c1 = 'h'
  · subst hh
    simp only [if_true, hnn0, if_false, ht0, htake0, scaleParsed]
  · simp only [hh, if_false, hnn, ht1, htake1, scaleParsed]

/-- The duration extractor on a token that ends in `m` after at least one other
byte: the `m` is cut, and an `h` before it is cut as well. -/
theorem getConfigInt_last_m (l : List Char) (off k : Nat) (tb rest : List Char) (c2 : Char)
    (hspan : l.drop off = List.replicate k ' ' ++ (tb ++ [c2] ++ ['m']) ++ rest)
    (h0 : (tb ++ [c2]).head? ≠ some ' ')
    (htok : ∀ c ∈ (tb ++ [c2]).tail, c ≠ ' ' ∧ c ≠ '\n')
    (hrest : rest = [] ∨ rest.head? = some ' ' ∨ rest.head? = some '\n') :
    wolfSSHD_GetConfigInt l off true =
      if c2 = 'h' then some (scaleParsed tb (60 * 60)) else some (scaleParsed (tb ++ [c2]) 60) := by
  obtain ⟨t0, tok, htk⟩ := List.exists_cons_of_ne_nil (show tb ++ [c2] ≠ [] by simp)
  rw [htk] at h0 htok
  have hscan := getConfigInt_scan (l.drop off) k t0 (tok ++ ['m']) rest
    (by rw [hspan, htk]; simp) (by simpa using h0)
    (by
      intro c hc
      rcases List.mem_append.1 hc with hc | hc
      · exact htok c (by simpa using hc)
      · have : c = 'm' := by simpa using hc
        subst this
        exact ⟨by decide, by decide⟩) hrest
  obtain ⟨hidx, hsz, htscan, hdrop⟩ := hscan
  have hlen : tok.length = tb.length := by
    have := congrArg List.length htk
    simp at this
    omega
  have hread1 : readAt l ((off : Int) + ((tb.length : Int) + 1 + 1 - 1 + (k : Int))) =
      some 'm' := by
    apply readAt_span l off (List.replicate k ' ' ++ (tb ++ [c2])) rest 'm'
    · rw [hspan]; simp
    · simp; omega
  have hread2 : readAt l ((off : Int) + ((tb.length : Int) + 1 + 1 - 1 - 1 + (k : Int))) =
      some c2 := by
    apply readAt_span l off (List.replicate k ' ' ++ tb) ('m' :: rest) c2
    · rw [hspan]; simp
    · simp; omega
  unfold wolfSSHD_GetConfigInt
  simp only [hidx, hsz, if_false, htscan, List.length_append, List.length_singleton, hlen,
    true_and, if_true, Nat.cast_add, Nat.cast_one, hread1, hread2, Option.map_some',
    Option.some_bind, WS_BAD_ARGUMENT, hdrop]
  rw [show t0 :: (tok ++ ['m']) ++ rest = tb ++ [c2] ++ ['m'] ++ rest by rw [htk]; simp]
  have htake1 : List.take (tb.length + 1) (tb ++ [c2] ++ ['m'] ++ rest) = tb ++ [c2] := by
    rw [List.append_assoc, List.take_append_eq_append_take]; simp
  have htake0 : List.take tb.length (tb ++ [c2] ++ ['m'] ++ rest) = tb := by
    rw [List.append_assoc, List.append_assoc, List.take_append_eq_append_take]; simp
  have hnn : ¬ ((tb.length : Int) + 1 + 1 - 1 < 0) := by omega
  have hnn0 : ¬ ((tb.length : Int) + 1 + 1 - 1 - 1 < 0) := by omega
  have ht1 : ((tb.length : Int) + 1 + 1 - 1).toNat = tb.length + 1 := by omega
  have ht0 : ((tb.length : Int) + 1 + 1 - 1 - 1).toNat = tb.length := by omega
  by_cases hh : c2 = 'h'
  · subst hh
    simp only [if_true, hnn0, if_false, ht0, htake0, scaleParsed]
  · simp only [hh, if_false, hnn, ht1, htake1, scaleParsed]

/-- The duration extractor on spaces, decimal digits, an optional unit suffix
and a rest that ends the token. -/
theorem getConfigInt_duration (l : List Char) (off k : Nat) (ds suffix rest : List Char)
    (mult : Int)
    (hspan : l.drop off = List.replicate k ' ' ++ ds ++ suffix ++ rest)
    (hds : ds ≠ []) (hdig : ∀ c ∈ ds, isdigit c = true)
    (hsuf : (suffix = [] ∧ mult = 1) ∨ (suffix = ['m'] ∧ mult = 60) ∨
      (suffix = ['h'] ∧ mult = 3600))
    (hrest : rest = [] ∨ rest.head? = some ' ' ∨ rest.head? = some '\n') :
    (0 < decimalValue ds → (decimalValue ds : Int) * mult < 2 ^ 63 →
        wolfSSHD_GetConfigInt l off true = some ((decimalValue ds : Int) * mult)) ∧
      (decimalValue ds = 0 → wolfSSHD_GetConfigInt l off true = some 0) := by
  obtain ⟨db, dl, hdb⟩ : ∃ db dl, ds = db ++ [dl] := by
    rcases List.eq_nil_or_concat ds with h | ⟨db, dl, h⟩
    · exact absurd h hds
    · exact ⟨db, dl, by simpa using h⟩
  have hdl := isdigit_ne dl (hdig dl (by simp [hdb]))
  have hhead : ds.head? ≠ some ' ' := by
    cases ds with
    | nil => simp
    | cons c t => simpa using (isdigit_ne c (hdig c (by simp))).1
  have htail : ∀ c ∈ ds.tail, c ≠ ' ' ∧ c ≠ '\n' := fun c hc =>
    have h := isdigit_ne c (hdig c (List.mem_of_mem_tail hc))
    ⟨h.1, h.2.1⟩
  have hatol := atol_digits ds hds hdig
  have hval : wolfSSHD_GetConfigInt l off true = some (scaleParsed ds mult) := by
    rcases hsuf with ⟨rfl, rfl⟩ | ⟨rfl, rfl⟩ | ⟨rfl, rfl⟩
    · rw [List.append_nil, hdb] at hspan
      rw [getConfigInt_last_not_m l off k db rest dl hspan (by simp) (hdb ▸ hhead)
        (hdb ▸ htail) hrest hdl.2.2.1, if_neg hdl.2.2.2.1, hdb]
    · rw [hdb, show List.replicate k ' ' ++ (db ++ [dl]) ++ ['m'] ++ rest =
        List.replicate k ' ' ++ (db ++ [dl] ++ ['m']) ++ rest by simp] at hspan
      rw [getConfigInt_last_m l off k db rest dl hspan (hdb ▸ hhead) (hdb ▸ htail) hrest,
        if_neg hdl.2.2.2.1, hdb]
    · rw [show List.replicate k ' ' ++ ds ++ ['h'] ++ rest =
        List.replicate k ' ' ++ (ds ++ ['h']) ++ rest by simp] at hspan
      rw [getConfigInt_last_not_m l off k ds rest 'h' hspan (by simp)
        (by cases ds with
          | nil => exact absurd rfl hds
          | cons c t => simpa using hhead)
        (by
          cases ds with
          | nil => exact absurd rfl hds
          | cons c t =>
            intro x hx
            simp only [List.cons_append, List.tail_cons, List.mem_append,
              List.mem_singleton] at hx
            rcases hx with hx | hx
            · exact htail x (by simpa using hx)
            · subst hx; exact ⟨by decide, by decide⟩) hrest (by decide), if_pos rfl]
      rfl
  rw [hval, scaleParsed, hatol]
  constructor
  · intro hpos hfit
    have hmult : 1 ≤ mult := by rcases hsuf with ⟨_, h⟩ | ⟨_, h⟩ | ⟨_, h⟩ <;> omega
    have hn0 : (0 : Int) < decimalValue ds := by exact_mod_cast hpos
    have hle : (decimalValue ds : Int) ≤ (decimalValue ds : Int) * mult := by nlinarith
    have hw : saturateLong (decimalValue ds) = decimalValue ds :=
      saturateLong_of_fits _ (by omega) (by omega)
    rw [hw, if_pos (by omega), wrapLong_of_fits _ (by nlinarith) hfit]
  · intro hz
    rw [hz]
    rfl

theorem tokenScan_le (x : List Char) : tokenScan x ≤ x.length := by
  induction x with
  | nil => simp [tokenScan]
  | cons c t ih =>
    simp only [tokenScan, List.length_cons]
    split
    · omega
    · split <;> omega

theorem skipSpaces_get (inp : List Char) (j : Nat) (hj : j < skipSpaces inp) :
    inp[j]? = some ' ' := by
  induction inp generalizing j with
  | nil => simp [skipSpaces] at hj
  | cons c t ih =>
    by_cases hc : c = ' '
    · simp only [skipSpaces, hc, if_true] at hj
      cases j with
      | zero => simp [hc]
      | succ j => simpa using ih j (by omega)
    · simp [skipSpaces, hc] at hj

theorem readAt_lt (l : List Char) (i : Int) (h0 : 0 ≤ i) (h1 : i.toNat < l.length) :
    ∃ c, readAt l i = some c ∧ l[i.toNat]? = some c := by
  refine ⟨l[i.toNat], ?_, ?_⟩
  · simp only [readAt, not_lt.2 h0, if_false]
    rw [List.getElem?_append_left h1]
    exact List.getElem?_eq_getElem h1
  · exact List.getElem?_eq_getElem h1

/-- The duration extractor does not fault when the span starts inside the
buffer after a byte that is not `h`. -/
theorem getConfigInt_total (l : List Char) (off : Nat) (hoff : 0 < off) (hlt : off < l.length)
    (hprev : l[off - 1]? ≠ some 'h') : ∃ num, wolfSSHD_GetConfigInt l off true = some num := by
  have hlen : (l.drop off).length = l.length - off := List.length_drop _ _
  by_cases hidx : skipSpaces (l.drop off) = (l.drop off).length
  · exact ⟨WS_BAD_ARGUMENT, by simp [wolfSSHD_GetConfigInt, hidx, WS_BAD_ARGUMENT]⟩
  · have hile := skipSpaces_le (l.drop off)
    have hsp := skipSpaces_get (l.drop off)
    have hsle := tokenScan_le ((l.drop off).drop (skipSpaces (l.drop off) + 1))
    rw [List.length_drop] at hsle
    unfold wolfSSHD_GetConfigInt
    simp only [hidx, if_false, true_and, if_true]
    generalize tokenScan ((l.drop off).drop (skipSpaces (l.drop off) + 1)) = s at hsle ⊢
    generalize skipSpaces (l.drop off) = i at hidx hile hsle hsp ⊢
    obtain ⟨c1, hc1, hg1⟩ := readAt_lt l ((off : Int) + ((s : Int) + 1 - 1 + (i : Int)))
      (by omega) (by omega)
    simp only [hc1, Option.map_some', Option.some_bind]
    by_cases hm : c1 = 'm'
    · simp only [hm, if_true]
      obtain ⟨c2, hc2, hg2⟩ := readAt_lt l ((off : Int) + ((s : Int) + 1 - 1 - 1 + (i : Int)))
        (by omega) (by omega)
      simp only [hc2, Option.map_some', Option.some_bind]
      by_cases hh : c2 = 'h'
      · have hs : 1 ≤ s := by
          by_contra hs0
          have hs0' : s = 0 := by omega
          subst hs0' hh
          have hidx2 : ((off : Int) + (((0 : Nat) : Int) + 1 - 1 - 1 + (i : Int))).toNat =
              off + i - 1 := by omega
          rw [hidx2] at hg2
          by_cases hi0 : i = 0
          · subst hi0
            exact hprev hg2
          · have hsp1 := hsp (i - 1) (by omega)
            rw [List.getElem?_drop] at hsp1
            rw [show off + (i - 1) = off + i - 1 by omega, hg2] at hsp1
            exact absurd hsp1 (by decide)
        simp only [hh, if_true]
        rw [if_neg (by omega)]
        exact ⟨_, rfl⟩
      · simp only [hh, if_false]
        rw [if_neg (by omega)]
        exact ⟨_, rfl⟩
    · simp only [hm, if_false, hc1, Option.map_some', Option.some_bind]
      by_cases hh : c1 = 'h'
      · simp only [hh, if_true]
        rw [if_neg (by omega)]
        exact ⟨_, rfl⟩
      · simp only [hh, if_false]
        rw [if_neg (by omega)]
        exact ⟨_, rfl⟩

theorem isdigit_ne_nul (c : Char) (h : isdigit c = true) : c ≠ '\x00' := by
  simp only [isdigit, Bool.and_eq_true, decide_eq_true_eq] at h
  have h1 : '0'.toNat ≤ c.toNat := h.1
  have e0 : '0'.toNat = 48 := rfl
  rw [e0] at h1
  intro e
  subst e
  exact absurd h1 (by decide)

theorem loadLoop_single (conf : WOLFSSHD_CONFIG) (line : List Char) (h : isDispatched line) :
    loadLoop conf WS_SUCCESS [line] = wolfSSHD_ParseConfigLine conf (lineBody line) := by
  rw [loadLoop_dispatch _ _ _ _ h]
  cases hp : wolfSSHD_ParseConfigLine conf (lineBody line) with
  | none => rfl
  | some p =>
    obtain ⟨r, c⟩ := p
    by_cases hr : r = WS_SUCCESS
    · simp [hr, loadLoop]
    · simp [hr]

/-- The dispatcher on a line that begins with `LoginGraceTime` and is longer
than the keyword: the extractor returns a value, and the line fails exactly
when that value is negative. -/
theorem parse_loginGraceTime_value (conf : WOLFSSHD_CONFIG) (l : List Char)
    (h : loginGraceTime <+: l) (hlen : 14 < l.length) :
    ∃ num, wolfSSHD_GetConfigInt l 14 true = some num ∧
      wolfSSHD_ParseConfigLine conf l =
        some (if num < 0 then (WS_BAD_ARGUMENT, conf)
          else (WS_SUCCESS, { conf with loginTimer := num })) := by
  have hprev : l[14 - 1]? ≠ some 'h' := by
    obtain ⟨t, rfl⟩ := h
    simp [loginGraceTime]
  obtain ⟨num, hnum⟩ := getConfigInt_total l 14 (by decide) hlen hprev
  refine ⟨num, hnum, ?_⟩
  rw [parse_loginGraceTime conf l h, blockLoginGraceTime_hit l _ h, if_neg (by omega), hnum]
  by_cases hneg : num < 0
  · simp [hneg]
  · simp [hneg]

/-- The line `LoginGraceTime <digits><suffix>` with its newline, loaded alone. -/
theorem load_loginGraceTime_line (conf : WOLFSSHD_CONFIG) (ds suffix : List Char) (mult : Int)
    (hds : ds ≠ []) (hdig : ∀ c ∈ ds, isdigit c = true) (hpos : 0 < decimalValue ds)
    (hsuf : (suffix = [] ∧ mult = 1) ∨ (suffix = ['m'] ∧ mult = 60) ∨
      (suffix = ['h'] ∧ mult = 3600))
    (hfit : (decimalValue ds : Int) * mult < 2 ^ 63) :
    loadLoop conf WS_SUCCESS ["LoginGraceTime ".toList ++ ds ++ suffix ++ ['\n']] =
      some (WS_SUCCESS, { conf with loginTimer := (decimalValue ds : Int) * mult }) := by
  have hline : "LoginGraceTime ".toList ++ ds ++ suffix ++ ['\n'] =
      loginGraceTime ++ (List.replicate 1 ' ' ++ ds ++ suffix ++ ['\n']) := by
    simp [loginGraceTime]
  have hnn : noNul ("LoginGraceTime ".toList ++ ds ++ suffix ++ ['\n']) := by
    intro c hc
    simp only [List.mem_append, List.mem_singleton] at hc
    rcases hc with ((hc | hc) | hc) | hc
    · revert c; decide
    · exact isdigit_ne_nul c (hdig c hc)
    · rcases hsuf with ⟨rfl, _⟩ | ⟨rfl, _⟩ | ⟨rfl, _⟩
      · simp at hc
      · have : c = 'm' := by simpa using hc
        subst this; decide
      · have : c = 'h' := by simpa using hc
        subst this; decide
    · subst hc; decide
  have hbody : lineBody ("LoginGraceTime ".toList ++ ds ++ suffix ++ ['\n']) =
      "LoginGraceTime ".toList ++ ds ++ suffix ++ ['\n'] := by
    rw [lineBody, XSTRLEN_eq_length _ hnn, List.take_length, hline]
    simp [loginGraceTime, trimLeading]
  have hpre : loginGraceTime <+: "LoginGraceTime ".toList ++ ds ++ suffix ++ ['\n'] := by
    rw [hline]; exact List.prefix_append _ _
  have hlen : 14 < ("LoginGraceTime ".toList ++ ds ++ suffix ++ ['\n']).length := by
    simp
  have hdisp : isDispatched ("LoginGraceTime ".toList ++ ds ++ suffix ++ ['\n']) := by
    rw [isDispatched, hbody]
    refine ⟨by omega, ?_⟩
    rw [hline]; simp [loginGraceTime]
  have hget := (getConfigInt_duration ("LoginGraceTime ".toList ++ ds ++ suffix ++ ['\n']) 14 1
    ds suffix ['\n'] mult (by rw [hline]; simp [loginGraceTime]) hds hdig hsuf
    (Or.inr (Or.inr rfl))).1 hpos hfit
  obtain ⟨num, hnum, hparse⟩ := parse_loginGraceTime_value conf _ hpre hlen
  rw [hget] at hnum
  have hnum' : num = (decimalValue ds : Int) * mult := (Option.some.inj hnum).symm
  subst hnum'
  have hmult : 1 ≤ mult := by rcases hsuf with ⟨_, h⟩ | ⟨_, h⟩ | ⟨_, h⟩ <;> omega
  have hn0 : (0 : Int) < decimalValue ds := by exact_mod_cast hpos
  have hnn0 : ¬ (decimalValue ds : Int) * mult < 0 := by nlinarith
  rw [loadLoop_single conf _ hdisp, hbody, hparse, if_neg hnn0]

/-- Lines that the load loop skips leave the status and the object alone. -/
theorem loadLoop_all_skipped (conf : WOLFSSHD_CONFIG) (ret : Int) (lines : List (List Char))
    (h : ∀ b ∈ lines, ¬ isDispatched b) : loadLoop conf ret lines = some (ret, conf) := by
  induction lines with
  | nil => rfl
  | cons b rest ih =>
    rw [loadLoop_skip conf ret b rest (h b (by simp))]
    exact ih (fun x hx => h x (by simp [hx]))

theorem parse_noop (conf : WOLFSSHD_CONFIG) (l kw : List Char) (hkw : kw ∈ noopKeywords)
    (h : kw <+: l) : wolfSSHD_ParseConfigLine conf l = some (WS_SUCCESS, conf) := by
  simp only [noopKeywords, List.mem_cons, List.mem_singleton, List.not_mem_nil, or_false] at hkw
  rcases hkw with rfl | rfl | rfl | rfl | rfl | rfl | rfl
  · rw [parse_of_keyword conf l ⟨"Subsystem".toList, blockNoop "Subsystem".toList 9⟩
      (by simp [directiveTable]) h]
    exact blockNoop_hit _ _ (by decide) (by decide) l _ h
  · rw [parse_of_keyword conf l ⟨"ChallengeResponseAuthentication".toList,
      blockNoop "ChallengeResponseAuthentication".toList 31⟩ (by simp [directiveTable]) h]
    exact blockNoop_hit _ _ (by decide) (by decide) l _ h
  · rw [parse_of_keyword conf l ⟨"UsePAM".toList, blockNoop "UsePAM".toList 6⟩
      (by simp [directiveTable]) h]
    exact blockNoop_hit _ _ (by decide) (by decide) l _ h
  · rw [parse_of_keyword conf l ⟨"X11Forwarding".toList, blockNoop "X11Forwarding".toList 13⟩
      (by simp [directiveTable]) h]
    exact blockNoop_hit _ _ (by decide) (by decide) l _ h
  · rw [parse_of_keyword conf l ⟨"PrintMotd".toList, blockNoop "PrintMotd".toList 9⟩
      (by simp [directiveTable]) h]
    exact blockNoop_hit _ _ (by decide) (by decide) l _ h
  · rw [parse_of_keyword conf l ⟨"AcceptEnv".toList, blockNoop "AcceptEnv".toList 9⟩
      (by simp [directiveTable]) h]
    exact blockNoop_hit _ _ (by decide) (by decide) l _ h
  · rw [parse_of_keyword conf l ⟨"Protocol".toList, blockNoop "Protocol".toList 8⟩
      (by simp [directiveTable]) h]
    exact blockNoop_hit _ _ (by decide) (by decide) l _ h

/-! ## What a dispatched line can change -/

theorem onlySettingsDiffer_iff (c c1 : WOLFSSHD_CONFIG) :
    onlySettingsDiffer c c1 ↔
      c1.heap = c.heap ∧ c1.banner = c.banner ∧ c1.chrootDir = c.chrootDir ∧
      c1.ciphers = c.ciphers ∧ c1.hostKey = c.hostKey ∧ c1.hostKeyAlgos = c.hostKeyAlgos ∧
      c1.kekAlgos = c.kekAlgos ∧ c1.listenAddress = c.listenAddress ∧ c1.port = c.port ∧
      c1.usePrivilegeSeparation = c.usePrivilegeSeparation ∧
      c1.passwordAuth = c.passwordAuth ∧ c1.pubKeyAuth = c.pubKeyAuth ∧
      c1.permitRootLogin = c.permitRootLogin := by
  cases c
  cases c1
  simp only [onlySettingsDiffer, WOLFSSHD_CONFIG.mk.injEq, true_and, and_true]

theorem onlySettingsDiffer_refl (c : WOLFSSHD_CONFIG) : onlySettingsDiffer c c := by
  simp [onlySettingsDiffer_iff]

theorem onlySettingsDiffer_trans {a b c : WOLFSSHD_CONFIG} (h1 : onlySettingsDiffer a b)
    (h2 : onlySettingsDiffer b c) : onlySettingsDiffer a c := by
  rw [onlySettingsDiffer_iff] at *
  obtain ⟨a1, a2, a3, a4, a5, a6, a7, a8, a9, a10, a11, a12, a13⟩ := h1
  obtain ⟨b1, b2, b3, b4, b5, b6, b7, b8, b9, b10, b11, b12, b13⟩ := h2
  exact ⟨b1.trans a1, b2.trans a2, b3.trans a3, b4.trans a4, b5.trans a5, b6.trans a6,
    b7.trans a7, b8.trans a8, b9.trans a9, b10.trans a10, b11.trans a11, b12.trans a12,
    b13.trans a13⟩

/-- Whatever block runs, the object afterwards differs at most in the three
settings, and a login-grace value that changed is not negative. -/
theorem table_effect (l : List Char) (conf : WOLFSSHD_CONFIG) :
    ∀ d ∈ directiveTable, ∀ r c, d.block l (WS_BAD_ARGUMENT, conf) = some (r, c) →
      onlySettingsDiffer conf c ∧ (c.loginTimer = conf.loginTimer ∨ 0 ≤ c.loginTimer) := by
  intro d hd r c hrun
  have hsame : ∀ x : Int, some (x, conf) = some (r, c) →
      onlySettingsDiffer conf c ∧ (c.loginTimer = conf.loginTimer ∨ 0 ≤ c.loginTimer) := by
    intro x hx
    simp only [Option.some.injEq, Prod.mk.injEq] at hx
    rw [← hx.2]
    exact ⟨onlySettingsDiffer_refl conf, Or.inl rfl⟩
  by_cases hk : d.keyword <+: l
  swap
  · rw [table_skip l _ d hd hk] at hrun
    exact hsame _ hrun
  simp only [directiveTable, List.mem_cons, List.mem_singleton, List.not_mem_nil, or_false] at hd
  rcases hd with rfl | rfl | rfl | rfl | rfl | rfl | rfl | rfl | rfl | rfl | rfl
  all_goals dsimp only at hrun hk
  · rw [blockAuthKeysFile_hit l _ hk] at hrun
    split at hrun
    · exact hsame _ hrun
    · split at hrun
      · exact hsame _ hrun
      · simp only [Option.some.injEq, Prod.mk.injEq] at hrun
        rw [← hrun.2]
        exact ⟨by simp [onlySettingsDiffer_iff], Or.inl rfl⟩
  · rw [blockPrivilegeSeparation_hit l _ hk] at hrun
    split at hrun
    · exact hsame _ hrun
    · split at hrun
      · simp at hrun
      · exact hsame _ hrun
  · rw [blockNoop_hit _ _ (by decide) (by decide) l _ hk] at hrun
    exact hsame _ hrun
  · rw [blockNoop_hit _ _ (by decide) (by decide) l _ hk] at hrun
    exact hsame _ hrun
  · rw [blockNoop_hit _ _ (by decide) (by decide) l _ hk] at hrun
    exact hsame _ hrun
  · rw [blockNoop_hit _ _ (by decide) (by decide) l _ hk] at hrun
    exact hsame _ hrun
  · rw [blockNoop_hit _ _ (by decide) (by decide) l _ hk] at hrun
    exact hsame _ hrun
  · rw [blockNoop_hit _ _ (by decide) (by decide) l _ hk] at hrun
    exact hsame _ hrun
  · rw [blockNoop_hit _ _ (by decide) (by decide) l _ hk] at hrun
    exact hsame _ hrun
  · rw [blockLoginGraceTime_hit l _ hk] at hrun
    split at hrun
    · exact hsame _ hrun
    · cases hnum : wolfSSHD_GetConfigInt l 14 true with
      | none => simp [hnum] at hrun
      | some num =>
        simp only [hnum, Option.some_bind] at hrun
        split at hrun
        · exact hsame _ hrun
        · rename_i hneg
          simp only [Option.some.injEq, Prod.mk.injEq] at hrun
          rw [← hrun.2]
          exact ⟨by simp [onlySettingsDiffer_iff], Or.inr (by simpa using hneg)⟩
  · rw [blockPermitEmptyPasswords_hit l _ hk] at hrun
    split at hrun
    · exact hsame _ hrun
    · split at hrun
      · simp at hrun
      · simp only [Option.some.injEq, Prod.mk.injEq] at hrun
        rw [← hrun.2]
        refine ⟨?_, Or.inl ?_⟩
        · split <;> simp [onlySettingsDiffer_iff]
        · split <;> rfl

theorem parse_effect (conf : WOLFSSHD_CONFIG) (l : List Char) (r : Int) (c : WOLFSSHD_CONFIG)
    (h : wolfSSHD_ParseConfigLine conf l = some (r, c)) :
    onlySettingsDiffer conf c ∧ (c.loginTimer = conf.loginTimer ∨ 0 ≤ c.loginTimer) := by
  by_cases hk : ∃ d ∈ directiveTable, d.keyword <+: l
  · obtain ⟨d, hd, hdl⟩ := hk
    rw [parse_of_keyword conf l d hd hdl] at h
    exact table_effect l conf d hd r c h
  · have hnone : runBlocks l directiveTable (WS_BAD_ARGUMENT, conf) =
        some (WS_BAD_ARGUMENT, conf) := by
      apply runBlocks_all_skip
      intro d hd st
      exact table_skip l st d hd (fun hdl => hk ⟨d, hd, hdl⟩)
    rw [parse_eq_runBlocks, hnone] at h
    simp only [Option.some.injEq, Prod.mk.injEq] at h
    rw [← h.2]
    exact ⟨onlySettingsDiffer_refl conf, Or.inl rfl⟩

theorem loadLoop_effect (lines : List (List Char)) (conf : WOLFSSHD_CONFIG) (ret r : Int)
    (c : WOLFSSHD_CONFIG) (h : loadLoop conf ret lines = some (r, c)) :
    onlySettingsDiffer conf c ∧ (0 ≤ conf.loginTimer → 0 ≤ c.loginTimer) := by
  induction lines generalizing conf ret with
  | nil =>
    simp only [loadLoop, Option.some.injEq, Prod.mk.injEq] at h
    rw [← h.2]
    exact ⟨onlySettingsDiffer_refl conf, id⟩
  | cons b rest ih =>
    by_cases hd : isDispatched b
    · rw [loadLoop_dispatch _ _ _ _ hd] at h
      cases hp : wolfSSHD_ParseConfigLine conf (lineBody b) with
      | none => simp [hp] at h
      | some p =>
        obtain ⟨r1, c1⟩ := p
        have he := parse_effect conf (lineBody b) r1 c1 hp
        have hpos : 0 ≤ conf.loginTimer → 0 ≤ c1.loginTimer := by
          intro h0
          rcases he.2 with e | e
          · rw [e]; exact h0
          · exact e
        simp only [hp] at h
        by_cases hr : r1 = WS_SUCCESS
        · simp only [hr, ne_eq, not_true_eq_false, if_false] at h
          have h2 := ih c1 WS_SUCCESS h
          exact ⟨onlySettingsDiffer_trans he.1 h2.1, fun h0 => h2.2 (hpos h0)⟩
        · simp only [ne_eq, hr, not_false_eq_true, if_true, Option.some.injEq,
            Prod.mk.injEq] at h
          rw [← h.2]
          exact ⟨he.1, hpos⟩
    · rw [loadLoop_skip _ _ _ _ hd] at h
      exact ih conf ret h

/-! ## When the dispatcher faults -/

theorem mem_table_keyword_cases (d : Directive) (hd : d ∈ directiveTable) :
    d.keyword = privilegeSeparation ∨ d.keyword = permitEmptyPasswords ∨
      d.keyword = loginGraceTime ∨ d.keyword = authKeyFile ∨ d.keyword ∈ noopKeywords := by
  simp only [directiveTable, List.mem_cons, List.mem_singleton, List.not_mem_nil, or_false] at hd
  rcases hd with rfl | rfl | rfl | rfl | rfl | rfl | rfl | rfl | rfl | rfl | rfl
  · exact Or.inr (Or.inr (Or.inr (Or.inl rfl)))
  · exact Or.inl rfl
  · exact Or.inr (Or.inr (Or.inr (Or.inr (by decide))))
  · exact Or.inr (Or.inr (Or.inr (Or.inr (by decide))))
  · exact Or.inr (Or.inr (Or.inr (Or.inr (by decide))))
  · exact Or.inr (Or.inr (Or.inr (Or.inr (by decide))))
  · exact Or.inr (Or.inr (Or.inr (Or.inr (by decide))))
  · exact Or.inr (Or.inr (Or.inr (Or.inr (by decide))))
  · exact Or.inr (Or.inr (Or.inr (Or.inr (by decide))))
  · exact Or.inr (Or.inr (Or.inl rfl))
  · exact Or.inr (Or.inl rfl)

/-- The dispatcher returns on every line except the ones on which it compares
a null string. -/
theorem parse_eq_none_iff (conf : WOLFSSHD_CONFIG) (l : List Char) :
    wolfSSHD_ParseConfigLine conf l = none ↔ readsNull l := by
  have hps : privilegeSeparation ∈ directiveKeywords := by decide
  have hpe : permitEmptyPasswords ∈ directiveKeywords := by decide
  by_cases h1 : privilegeSeparation <+: l
  · have hne : ¬ permitEmptyPasswords <+: l := fun h2 =>
      absurd (keyword_unique hps hpe h1 h2) (by decide)
    rw [parse_privilegeSeparation conf l h1, blockPrivilegeSeparation_hit l _ h1]
    simp only [readsNull, h1, hne, true_and, false_and, or_false]
    by_cases ha : l.length ≤ 22
    · simp [ha, Nat.not_lt.2 ha]
    · by_cases hb : ∀ c ∈ l.drop 22, c = ' '
      · simp only [ha, if_false, if_pos hb, true_iff]
        exact ⟨by omega, hb⟩
      · simp only [ha, if_false, if_neg hb, reduceCtorEq, false_iff, not_and]
        exact fun _ => hb
  · by_cases h2 : permitEmptyPasswords <+: l
    · rw [parse_permitEmptyPasswords conf l h2, blockPermitEmptyPasswords_hit l _ h2]
      simp only [readsNull, h1, h2, true_and, false_and, false_or]
      by_cases ha : l.length ≤ 20
      · simp [ha, Nat.not_lt.2 ha]
      · by_cases hb : ∀ c ∈ l.drop 20, c = ' '
        · simp only [ha, if_false, if_pos hb, true_iff]
          exact ⟨by omega, hb⟩
        · simp only [ha, if_false, if_neg hb, reduceCtorEq, false_iff, not_and]
          exact fun _ => hb
    · have hnr : ¬ readsNull l := by
        simp [readsNull, h1, h2]
      simp only [hnr, iff_false]
      by_cases hk : ∃ d ∈ directiveTable, d.keyword <+: l
      · obtain ⟨d, hd, hdl⟩ := hk
        rcases mem_table_keyword_cases d hd with e | e | e | e | e
        · exact absurd (e ▸ hdl) h1
        · exact absurd (e ▸ hdl) h2
        · have hl : loginGraceTime <+: l := e ▸ hdl
          rw [parse_loginGraceTime conf l hl, blockLoginGraceTime_hit l _ hl]
          by_cases ha : l.length ≤ 14
          · simp [ha]
          · obtain ⟨num, hnum, _⟩ := parse_loginGraceTime_value conf l hl (by omega)
            rw [if_neg ha, hnum]
            by_cases hneg : num < 0 <;> simp [hneg]
        · have hl : authKeyFile <+: l := e ▸ hdl
          rw [parse_authKeyFile conf l hl, blockAuthKeysFile_hit l _ hl]
          split
          · simp
          · split <;> simp
        · rw [parse_noop conf l d.keyword e hdl]
          simp
      · have hnone : runBlocks l directiveTable (WS_BAD_ARGUMENT, conf) =
            some (WS_BAD_ARGUMENT, conf) := by
          apply runBlocks_all_skip
          intro d hd st
          exact table_skip l st d hd (fun hdl => hk ⟨d, hd, hdl⟩)
        rw [parse_eq_runBlocks, hnone]
        simp

/-- The load returns when no line that it hands to the dispatcher is one on
which the dispatcher compares a null string. -/
theorem loadLoop_returns (lines : List (List Char)) (conf : WOLFSSHD_CONFIG) (ret : Int)
    (h : ∀ b ∈ lines, ¬ readsNull (lineBody b)) : ∃ p, loadLoop conf ret lines = some p := by
  induction lines generalizing conf ret with
  | nil => exact ⟨_, rfl⟩
  | cons b rest ih =>
    have hrest : ∀ x ∈ rest, ¬ readsNull (lineBody x) := fun x hx => h x (by simp [hx])
    by_cases hd : isDispatched b
    · rw [loadLoop_dispatch _ _ _ _ hd]
      cases hp : wolfSSHD_ParseConfigLine conf (lineBody b) with
      | none => exact absurd ((parse_eq_none_iff conf _).1 hp) (h b (by simp))
      | some p =>
        obtain ⟨r1, c1⟩ := p
        by_cases hr : r1 = WS_SUCCESS
        · simp only [hr, ne_eq, not_true_eq_false, if_false]
          exact ih c1 WS_SUCCESS hrest
        · simp only [ne_eq, hr, not_false_eq_true, if_true]
          exact ⟨_, rfl⟩
    · rw [loadLoop_skip _ _ _ _ hd]
      exact ih conf ret hrest

/-- The chain of blocks does what the first-match dispatcher does. -/
theorem parse_eq_firstMatchDispatch (conf : WOLFSSHD_CONFIG) (l : List Char) :
    wolfSSHD_ParseConfigLine conf l = firstMatchDispatch conf l := by
  unfold firstMatchDispatch
  cases hf : directiveTable.find? (fun d => decide (d.keyword <+: l)) with
  | none =>
    rw [List.find?_eq_none] at hf
    rw [parse_eq_runBlocks]
    apply runBlocks_all_skip
    intro d hd st
    exact table_skip l st d hd (by simpa using hf d hd)
  | some d =>
    have hd : d ∈ directiveTable := List.mem_of_find?_eq_some hf
    have hk : d.keyword <+: l := by simpa using List.find?_some hf
    exact parse_of_keyword conf l d hd hk

theorem noop_not_value : ∀ k ∈ noopKeywords, k ∉ valueKeywords := by
  decide

/-- An accepted line begins with a keyword, and is longer than it when the
keyword is one of the four that carry a value. -/
theorem parse_success_keyword (conf : WOLFSSHD_CONFIG) (l : List Char) (c : WOLFSSHD_CONFIG)
    (h : wolfSSHD_ParseConfigLine conf l = some (WS_SUCCESS, c)) :
    ∃ k ∈ directiveKeywords, k <+: l ∧ (k ∈ valueKeywords → k.length < l.length) := by
  by_cases hk : ∃ d ∈ directiveTable, d.keyword <+: l
  · obtain ⟨d, hd, hdl⟩ := hk
    refine ⟨d.keyword, mem_keywords_of_mem_table hd, hdl, ?_⟩
    intro hv
    by_contra hlen
    rw [parse_of_keyword conf l d hd hdl] at h
    have hbad : d.block l (WS_BAD_ARGUMENT, conf) = some (WS_BAD_ARGUMENT, conf) := by
      rcases mem_table_keyword_cases d hd with e | e | e | e | e
      · have hl : privilegeSeparation <+: l := e ▸ hdl
        have e2 := parse_privilegeSeparation conf l hl
        rw [parse_of_keyword conf l d hd hdl] at e2
        rw [e2, blockPrivilegeSeparation_hit l _ hl, if_pos (by rw [e] at hlen; simpa using hlen)]
      · have hl : permitEmptyPasswords <+: l := e ▸ hdl
        have e2 := parse_permitEmptyPasswords conf l hl
        rw [parse_of_keyword conf l d hd hdl] at e2
        rw [e2, blockPermitEmptyPasswords_hit l _ hl,
          if_pos (by rw [e] at hlen; simpa using hlen)]
      · have hl : loginGraceTime <+: l := e ▸ hdl
        have e2 := parse_loginGraceTime conf l hl
        rw [parse_of_keyword conf l d hd hdl] at e2
        rw [e2, blockLoginGraceTime_hit l _ hl, if_pos (by rw [e] at hlen; simpa using hlen)]
      · have hl : authKeyFile <+: l := e ▸ hdl
        have e2 := parse_authKeyFile conf l hl
        rw [parse_of_keyword conf l d hd hdl] at e2
        rw [e2, blockAuthKeysFile_hit l _ hl, if_pos (by rw [e] at hlen; simpa using hlen)]
      · exact absurd hv (noop_not_value _ e)
    rw [hbad] at h
    simp only [Option.some.injEq, Prod.mk.injEq] at h
    exact bad_ne_success h.1
  · have hnone : runBlocks l directiveTable (WS_BAD_ARGUMENT, conf) =
        some (WS_BAD_ARGUMENT, conf) := by
      apply runBlocks_all_skip
      intro d hd st
      exact table_skip l st d hd (fun hdl => hk ⟨d, hd, hdl⟩)
    rw [parse_eq_runBlocks, hnone] at h
    simp only [Option.some.injEq, Prod.mk.injEq] at h
    exact absurd h.1 bad_ne_success

theorem parse_bare_value_keyword (conf : WOLFSSHD_CONFIG) (k : List Char)
    (hk : k ∈ valueKeywords) :
    wolfSSHD_ParseConfigLine conf k = some (WS_BAD_ARGUMENT, conf) := by
  simp only [valueKeywords, List.mem_cons, List.mem_singleton, List.not_mem_nil, or_false] at hk
  rcases hk with rfl | rfl | rfl | rfl
  · have hl : authKeyFile <+: "AuthorizedKeysFile".toList := by decide
    rw [parse_authKeyFile conf _ hl, blockAuthKeysFile_hit _ _ hl, if_pos (by decide)]
  · have hl : privilegeSeparation <+: "UsePrivilegeSeparation".toList := by decide
    rw [parse_privilegeSeparation conf _ hl, blockPrivilegeSeparation_hit _ _ hl,
      if_pos (by decide)]
  · have hl : loginGraceTime <+: "LoginGraceTime".toList := by decide
    rw [parse_loginGraceTime conf _ hl, blockLoginGraceTime_hit _ _ hl, if_pos (by decide)]
  · have hl : permitEmptyPasswords <+: "PermitEmptyPasswords".toList := by decide
    rw [parse_permitEmptyPasswords conf _ hl, blockPermitEmptyPasswords_hit _ _ hl,
      if_pos (by decide)]

/-! ## Stacked suffixes and the authorized-keys path -/

theorem atolDigits_append_stop (ds t : List Char) (c : Char) (hd : ∀ x ∈ ds, isdigit x = true)
    (hc : isdigit c = false) (acc : Nat) :
    atolDigits (ds ++ c :: t) acc = atolDigits ds acc := by
  induction ds generalizing acc with
  | nil => simp [atolDigits, hc]
  | cons d ds ih =>
    have h1 := hd d (by simp)
    simp only [List.cons_append, atolDigits, h1, if_true]
    exact ih (fun x hx => hd x (by simp [hx])) _

theorem atol_digits_stop (ds t : List Char) (c : Char) (hne : ds ≠ [])
    (hd : ∀ x ∈ ds, isdigit x = true) (hc : isdigit c = false) :
    atol (ds ++ c :: t) = saturateLong (decimalValue ds) := by
  cases ds with
  | nil => exact absurd rfl hne
  | cons d ds =>
    have h1 := isdigit_ne d (hd d (by simp))
    have hdw : List.dropWhile isspace (d :: ds ++ c :: t) = d :: ds ++ c :: t := by
      simp [List.dropWhile_cons, h1.2.2.2.2.2.2]
    have he := atolDigits_eq (d :: ds) hd 0
    have hs := atolDigits_append_stop (d :: ds) t c hd hc 0
    unfold atol
    rw [hdw]
    split
    · rename_i heq; simp at heq; exact absurd heq.1 h1.2.2.2.2.1
    · rename_i heq; simp at heq; exact absurd heq.1 h1.2.2.2.2.2.1
    · rw [hs, he]; simp

/-- The duration extractor on the token `m` alone: the `m` is cut, and the
second test reads the byte before the token. -/
theorem getConfigInt_only_m (l : List Char) (off k : Nat) (rest : List Char)
    (hspan : l.drop off = List.replicate k ' ' ++ ['m'] ++ rest)
    (hrest : rest = [] ∨ rest.head? = some ' ' ∨ rest.head? = some '\n') :
    wolfSSHD_GetConfigInt l off true = none ∨
      wolfSSHD_GetConfigInt l off true = some (scaleParsed [] 60) := by
  have hscan := getConfigInt_scan (l.drop off) k 'm' [] rest (by rw [hspan])
    (by decide) (by simp) hrest
  obtain ⟨hidx, hsz, htscan, hdrop⟩ := hscan
  have hread1 : readAt l ((off : Int) + (((0 : Nat) : Int) + 1 - 1 + (k : Int))) = some 'm' := by
    apply readAt_span l off (List.replicate k ' ') rest 'm'
    · rw [hspan]; simp
    · simp
  unfold wolfSSHD_GetConfigInt
  simp only [hidx, hsz, if_false, htscan, List.length_nil, true_and, if_true, hread1,
    Option.map_some', Option.some_bind, WS_BAD_ARGUMENT, hdrop]
  cases hr2 : readAt l ((off : Int) + (((0 : Nat) : Int) + 1 - 1 - 1 + (k : Int))) with
  | none => left; simp
  | some c2 =>
    by_cases hh : c2 = 'h'
    · left
      simp [hh]
    · right
      simp [hh, scaleParsed]

/-- The duration extractor on decimal digits followed by `hm` or `mm`. -/
theorem getConfigInt_stacked (l : List Char) (off k : Nat) (ds suffix rest : List Char)
    (mult : Int)
    (hspan : l.drop off = List.replicate k ' ' ++ ds ++ suffix ++ rest)
    (hds : ds ≠ []) (hdig : ∀ c ∈ ds, isdigit c = true) (hpos : 0 < decimalValue ds)
    (hsuf : (suffix = ['h', 'm'] ∧ mult = 3600) ∨ (suffix = ['m', 'm'] ∧ mult = 60))
    (hrest : rest = [] ∨ rest.head? = some ' ' ∨ rest.head? = some '\n')
    (hfit : (decimalValue ds : Int) * mult < 2 ^ 63) :
    wolfSSHD_GetConfigInt l off true = some ((decimalValue ds : Int) * mult) := by
  have hhead : ∀ c : Char, (ds ++ [c]).head? ≠ some ' ' := by
    intro c
    cases ds with
    | nil => exact absurd rfl hds
    | cons d t => simpa using (isdigit_ne d (hdig d (by simp))).1
  have htail : ∀ c : Char, c ≠ ' ' ∧ c ≠ '\n' → ∀ x ∈ (ds ++ [c]).tail, x ≠ ' ' ∧ x ≠ '\n' := by
    intro c hc x hx
    cases ds with
    | nil => exact absurd rfl hds
    | cons d t =>
      simp only [List.cons_append, List.tail_cons, List.mem_append, List.mem_singleton] at hx
      rcases hx with hx | hx
      · have h := isdigit_ne x (hdig x (by simp [hx]))
        exact ⟨h.1, h.2.1⟩
      · rw [hx]; exact hc
  have hmult : 1 ≤ mult := by rcases hsuf with ⟨_, h⟩ | ⟨_, h⟩ <;> omega
  have hn0 : (0 : Int) < decimalValue ds := by exact_mod_cast hpos
  have hle : (decimalValue ds : Int) ≤ (decimalValue ds : Int) * mult := by nlinarith
  have hw : saturateLong (decimalValue ds) = decimalValue ds :=
    saturateLong_of_fits _ (by omega) (by omega)
  have hfin : ∀ num : List Char, atol num = saturateLong (decimalValue ds) →
      scaleParsed num mult = (decimalValue ds : Int) * mult := by
    intro num ha
    rw [scaleParsed, ha, hw, if_pos (by omega), wrapLong_of_fits _ (by nlinarith) hfit]
  rcases hsuf with ⟨rfl, rfl⟩ | ⟨rfl, rfl⟩
  · rw [show List.replicate k ' ' ++ ds ++ ['h', 'm'] ++ rest =
      List.replicate k ' ' ++ (ds ++ ['h'] ++ ['m']) ++ rest by simp] at hspan
    rw [getConfigInt_last_m l off k ds rest 'h' hspan (hhead 'h')
      (htail 'h' ⟨by decide, by decide⟩) hrest, if_pos rfl]
    exact congrArg some (hfin ds (atol_digits ds hds hdig))
  · rw [show List.replicate k ' ' ++ ds ++ ['m', 'm'] ++ rest =
      List.replicate k ' ' ++ (ds ++ ['m'] ++ ['m']) ++ rest by simp] at hspan
    rw [getConfigInt_last_m l off k ds rest 'm' hspan (hhead 'm')
      (htail 'm' ⟨by decide, by decide⟩) hrest, if_neg (by decide)]
    exact congrArg some (hfin (ds ++ ['m']) (atol_digits_stop ds [] 'm' hds hdig (by decide)))

/-- The line `AuthorizedKeysFile <p>` with its newline, loaded alone. -/
theorem load_authKeysFile_line (conf : WOLFSSHD_CONFIG) (p : List Char) (hne : p ≠ [])
    (hp : ∀ c ∈ p, c ≠ ' ' ∧ c ≠ '\n' ∧ c ≠ '\x00') :
    loadLoop conf WS_SUCCESS ["AuthorizedKeysFile ".toList ++ p ++ ['\n']] =
      some (WS_SUCCESS, { conf with authKeysFile := some (p ++ ['\n']) }) := by
  have hline : "AuthorizedKeysFile ".toList ++ p ++ ['\n'] =
      authKeyFile ++ (' ' :: (p ++ ['\n'])) := by
    simp [authKeyFile]
  have hnn : noNul ("AuthorizedKeysFile ".toList ++ p ++ ['\n']) := by
    intro c hc
    simp only [List.mem_append, List.mem_singleton] at hc
    rcases hc with (hc | hc) | hc
    · revert c; decide
    · exact (hp c hc).2.2
    · subst hc; decide
  have hbody : lineBody ("AuthorizedKeysFile ".toList ++ p ++ ['\n']) =
      "AuthorizedKeysFile ".toList ++ p ++ ['\n'] := by
    rw [lineBody, XSTRLEN_eq_length _ hnn, List.take_length, hline]
    simp [authKeyFile, trimLeading]
  have hpre : authKeyFile <+: "AuthorizedKeysFile ".toList ++ p ++ ['\n'] := by
    rw [hline]; exact List.prefix_append _ _
  have hlen : ¬ ("AuthorizedKeysFile ".toList ++ p ++ ['\n']).length ≤ 18 := by
    simp
  have hdisp : isDispatched ("AuthorizedKeysFile ".toList ++ p ++ ['\n']) := by
    rw [isDispatched, hbody]
    refine ⟨by omega, ?_⟩
    rw [hline]; simp [authKeyFile]
  have hdrop : ("AuthorizedKeysFile ".toList ++ p ++ ['\n']).drop 18 = ' ' :: (p ++ ['\n']) := by
    rw [hline]
    exact List.drop_left' (by decide)
  have hns : ¬ ∀ c ∈ ' ' :: (p ++ ['\n']), c = ' ' := by
    intro hall
    exact absurd (hall '\n' (by simp)) (by decide)
  have hdw : List.dropWhile (fun c => decide (c = ' ')) (' ' :: (p ++ ['\n'])) = p ++ ['\n'] := by
    cases p with
    | nil => exact absurd rfl hne
    | cons x xs =>
      have hx := (hp x (by simp)).1
      simp [List.dropWhile_cons, hx]
  rw [loadLoop_single conf _ hdisp, hbody, parse_authKeyFile conf _ hpre,
    blockAuthKeysFile_hit _ _ hpre, if_neg hlen, hdrop, if_neg hns, hdw]

/-! ## The text and the multiplier at `atol` -/

/-- The extractor returns what `finishCut` makes of the state `configIntCut`
describes. -/
theorem getConfigInt_eq_finishCut (l : List Char) (off : Nat) (isTime : Bool) :
    wolfSSHD_GetConfigInt l off isTime = (configIntCut l off isTime).map finishCut := by
  unfold wolfSSHD_GetConfigInt configIntCut
  simp only []
  rw [Option.map_bind']
  congr 1
  funext p
  obtain ⟨sz, mult⟩ := p
  by_cases h0 : (if skipSpaces (l.drop off) = (l.drop off).length then WS_BAD_ARGUMENT else 0) = 0
  · simp only [h0, if_true]
    by_cases hs : sz < 0
    · simp [hs]
    · simp [hs, finishCut, scaleParsed]
  · simp only [h0, if_false]
    have : skipSpaces (l.drop off) = (l.drop off).length := by
      by_contra hne
      exact h0 (by rw [if_neg hne])
    simp only [this, if_true, Option.map_some', finishCut]

/-- The text and the multiplier at `atol` for a token whose last byte is not
`m`: one `h` is cut, nothing else. -/
theorem configIntCut_last_not_m (l : List Char) (off k : Nat) (tb rest : List Char) (c1 : Char)
    (hspan : l.drop off = List.replicate k ' ' ++ (tb ++ [c1]) ++ rest)
    (hne : tb ++ [c1] ≠ []) (h0 : (tb ++ [c1]).head? ≠ some ' ')
    (htok : ∀ c ∈ (tb ++ [c1]).tail, c ≠ ' ' ∧ c ≠ '\n')
    (hrest : rest = [] ∨ rest.head? = some ' ' ∨ rest.head? = some '\n')
    (hm : c1 ≠ 'm') :
    configIntCut l off true =
      if c1 = 'h' then some (some (tb, 60 * 60)) else some (some (tb ++ [c1], 1)) := by
  obtain ⟨t0, tok, htk⟩ := List.exists_cons_of_ne_nil hne
  rw [htk] at h0 htok
  have hscan := getConfigInt_scan (l.drop off) k t0 tok rest (by rw [hspan, htk])
    (by simpa using h0) (by simpa using htok) hrest
  obtain ⟨hidx, hsz, htscan, hdrop⟩ := hscan
  have hlen : tok.length = tb.length := by
    have := congrArg List.length htk
    simp at this
    omega
  have hread : readAt l ((off : Int) + ((tb.length : Int) + 1 - 1 + (k : Int))) = some c1 := by
    apply readAt_span l off (List.replicate k ' ' ++ tb) rest c1
    · rw [hspan]; simp
    · simp; omega
  unfold configIntCut
  simp only [hidx, hsz, if_false, htscan, hlen, true_and, if_true, hread, Option.map_some', hm,
    Option.some_bind, WS_BAD_ARGUMENT, hdrop, ← htk]
  have htake1 : List.take (tb.length + 1) (tb ++ [c1] ++ rest) = tb ++ [c1] := by
    rw [List.take_append_eq_append_take]; simp
  have htake0 : List.take tb.length (tb ++ [c1] ++ rest) = tb := by
    rw [List.append_assoc, List.take_append_eq_append_take]; simp
  have hnn : ¬ ((tb.length : Int) + 1 < 0) := by omega
  have hnn0 : ¬ ((tb.length : Int) + 1 - 1 < 0) := by omega
  have ht1 : ((tb.length : Int) + 1).toNat = tb.length + 1 := by omega
  have ht0 : ((tb.length : Int) + 1 - 1).toNat = tb.length := by omega
  by_cases hh : c1 = 'h'
  · subst hh
    simp only [if_true, hnn0, if_false, ht0, htake0]
  · simp only [hh, if_false, hnn, ht1, htake1]

/-- The text and the multiplier at `atol` for a token that ends in `m` after at
least one other byte: the `m` is cut, and an `h` before it is cut as well. -/
theorem configIntCut_last_m (l : List Char) (off k : Nat) (tb rest : List Char) (c2 : Char)
    (hspan : l.drop off = List.replicate k ' ' ++ (tb ++ [c2] ++ ['m']) ++ rest)
    (h0 : (tb ++ [c2]).head? ≠ some ' ')
    (htok : ∀ c ∈ (tb ++ [c2]).tail, c ≠ ' ' ∧ c ≠ '\n')
    (hrest : rest = [] ∨ rest.head? = some ' ' ∨ rest.head? = some '\n') :
    configIntCut l off true =
      if c2 = 'h' then some (some (tb, 60 * 60)) else some (some (tb ++ [c2], 60)) := by
  obtain ⟨t0, tok, htk⟩ := List.exists_cons_of_ne_nil (show tb ++ [c2] ≠ [] by simp)
  rw [htk] at h0 htok
  have hscan := getConfigInt_scan (l.drop off) k t0 (tok ++ ['m']) rest
    (by rw [hspan, htk]; simp) (by simpa using h0)
    (by
      intro c hc
      rcases List.mem_append.1 hc with hc | hc
      · exact htok c (by simpa using hc)
      · have : c = 'm' := by simpa using hc
        subst this
        exact ⟨by decide, by decide⟩) hrest
  obtain ⟨hidx, hsz, htscan, hdrop⟩ := hscan
  have hlen : tok.length = tb.length := by
    have := congrArg List.length htk
    simp at this
    omega
  have hread1 : readAt l ((off : Int) + ((tb.length : Int) + 1 + 1 - 1 + (k : Int))) =
      some 'm' := by
    apply readAt_span l off (List.replicate k ' ' ++ (tb ++ [c2])) rest 'm'
    · rw [hspan]; simp
    · simp; omega
  have hread2 : readAt l ((off : Int) + ((tb.length : Int) + 1 + 1 - 1 - 1 + (k : Int))) =
      some c2 := by
    apply readAt_span l off (List.replicate k ' ' ++ tb) ('m' :: rest) c2
    · rw [hspan]; simp
    · simp; omega
  unfold configIntCut
  simp only [hidx, hsz, if_false, htscan, List.length_append, List.length_singleton, hlen,
    true_and, if_true, Nat.cast_add, Nat.cast_one, hread1, hread2, Option.map_some',
    Option.some_bind, WS_BAD_ARGUMENT, hdrop]
  rw [show t0 :: (tok ++ ['m']) ++ rest = tb ++ [c2] ++ ['m'] ++ rest by rw [htk]; simp]
  have htake1 : List.take (tb.length + 1) (tb ++ [c2] ++ ['m'] ++ rest) = tb ++ [c2] := by
    rw [List.append_assoc, List.take_append_eq_append_take]; simp
  have htake0 : List.take tb.length (tb ++ [c2] ++ ['m'] ++ rest) = tb := by
    rw [List.append_assoc, List.append_assoc, List.take_append_eq_append_take]; simp
  have hnn : ¬ ((tb.length : Int) + 1 + 1 - 1 < 0) := by omega
  have hnn0 : ¬ ((tb.length : Int) + 1 + 1 - 1 - 1 < 0) := by omega
  have ht1 : ((tb.length : Int) + 1 + 1 - 1).toNat = tb.length + 1 := by omega
  have ht0 : ((tb.length : Int) + 1 + 1 - 1 - 1).toNat = tb.length := by omega
  by_cases hh : c2 = 'h'
  · subst hh
    simp only [if_true, hnn0, if_false, ht0, htake0]
  · simp only [hh, if_false, hnn, ht1, htake1]

/-- The text and the multiplier at `atol` for the token `m` alone: the `m` is
cut, and the second test reads the byte before the token. -/
theorem configIntCut_only_m (l : List Char) (off k : Nat) (rest : List Char)
    (hspan : l.drop off = List.replicate k ' ' ++ ['m'] ++ rest)
    (hrest : rest = [] ∨ rest.head? = some ' ' ∨ rest.head? = some '\n') :
    configIntCut l off true = none ∨
      configIntCut l off true = some (some ([], 60)) := by
  have hscan := getConfigInt_scan (l.drop off) k 'm' [] rest (by rw [hspan])
    (by decide) (by simp) hrest
  obtain ⟨hidx, hsz, htscan, hdrop⟩ := hscan
  have hread1 : readAt l ((off : Int) + (((0 : Nat) : Int) + 1 - 1 + (k : Int))) = some 'm' := by
    apply readAt_span l off (List.replicate k ' ') rest 'm'
    · rw [hspan]; simp
    · simp
  unfold configIntCut
  simp only [hidx, hsz, if_false, htscan, List.length_nil, true_and, if_true, hread1,
    Option.map_some', Option.some_bind, WS_BAD_ARGUMENT, hdrop]
  cases hr2 : readAt l ((off : Int) + (((0 : Nat) : Int) + 1 - 1 - 1 + (k : Int))) with
  | none => left; simp
  | some c2 =>
    by_cases hh : c2 = 'h'
    · left
      simp [hh]
    · right
      simp [hh]

/-- The text at `atol` is the token without at most two of its last bytes,
and which bytes are cut and which multiplier is set follows from the last two
bytes of the token alone. -/
theorem configIntCut_token (l : List Char) (off k : Nat) (tb rest : List Char) (c1 : Char)
    (hspan : l.drop off = List.replicate k ' ' ++ (tb ++ [c1]) ++ rest)
    (h0 : (tb ++ [c1]).head? ≠ some ' ')
    (htok : ∀ c ∈ (tb ++ [c1]).tail, c ≠ ' ' ∧ c ≠ '\n')
    (hrest : rest = [] ∨ rest.head? = some ' ' ∨ rest.head? = some '\n') :
    (c1 ≠ 'm' → c1 ≠ 'h' → configIntCut l off true = some (some (tb ++ [c1], 1))) ∧
      (c1 = 'h' → configIntCut l off true = some (some (tb, 3600))) ∧
      (c1 = 'm' → ∀ tb2 c2, tb = tb2 ++ [c2] →
        (c2 ≠ 'h' → configIntCut l off true = some (some (tb, 60))) ∧
        (c2 = 'h' → configIntCut l off true = some (some (tb2, 3600)))) ∧
      (c1 = 'm' → tb = [] →
        configIntCut l off true = none ∨ configIntCut l off true = some (some ([], 60))) ∧
      (∀ num m, configIntCut l off true = some (some (num, m)) →
        ∃ n, n ≤ 2 ∧ num = (tb ++ [c1]).take ((tb ++ [c1]).length - n)) := by
  have hne : tb ++ [c1] ≠ [] := by simp
  have htake1 : (tb ++ [c1]).take ((tb ++ [c1]).length - 1) = tb := List.take_left' (by simp)
  have e1 : c1 ≠ 'm' → c1 ≠ 'h' → configIntCut l off true = some (some (tb ++ [c1], 1)) := by
    intro hm hh
    rw [configIntCut_last_not_m l off k tb rest c1 hspan hne h0 htok hrest hm, if_neg hh]
  have e2 : c1 = 'h' → configIntCut l off true = some (some (tb, 3600)) := by
    intro hh
    rw [configIntCut_last_not_m l off k tb rest c1 hspan hne h0 htok hrest
      (by rw [hh]; decide), if_pos hh]
    norm_num
  have e3 : c1 = 'm' → ∀ tb2 c2, tb = tb2 ++ [c2] →
      (c2 ≠ 'h' → configIntCut l off true = some (some (tb, 60))) ∧
      (c2 = 'h' → configIntCut l off true = some (some (tb2, 3600))) := by
    intro hm tb2 c2 htb
    subst hm htb
    have h0' : (tb2 ++ [c2]).head? ≠ some ' ' := by
      cases tb2 <;> simpa using h0
    have htok' : ∀ c ∈ (tb2 ++ [c2]).tail, c ≠ ' ' ∧ c ≠ '\n' := by
      intro c hc
      apply htok c
      cases tb2 with
      | nil => simp at hc
      | cons x xs =>
        simp only [List.cons_append, List.tail_cons, List.mem_append] at hc ⊢
        exact Or.inl hc
    have e := configIntCut_last_m l off k tb2 rest c2 hspan h0' htok' hrest
    exact ⟨fun hh => by rw [e, if_neg hh], fun hh => by rw [e, if_pos hh]; norm_num⟩
  have e4 : c1 = 'm' → tb = [] →
      configIntCut l off true = none ∨ configIntCut l off true = some (some ([], 60)) := by
    intro hm htb
    subst hm htb
    exact configIntCut_only_m l off k rest (by simpa using hspan) hrest
  refine ⟨e1, e2, e3, e4, ?_⟩
  intro num m hcut
  by_cases hm : c1 = 'm'
  · rcases List.eq_nil_or_concat tb with h | ⟨tb2, c2, h⟩
    · rcases e4 hm h with e | e
      · rw [e] at hcut; exact Option.noConfusion hcut
      · rw [e] at hcut
        simp only [Option.some.injEq, Prod.mk.injEq] at hcut
        exact ⟨1, by omega, by rw [← hcut.1, htake1, h]⟩
    · have htb : tb = tb2 ++ [c2] := by simpa using h
      by_cases hh : c2 = 'h'
      · rw [(e3 hm tb2 c2 htb).2 hh] at hcut
        simp only [Option.some.injEq, Prod.mk.injEq] at hcut
        refine ⟨2, by omega, ?_⟩
        have ht2 : (tb2 ++ [c2] ++ [c1]).take ((tb2 ++ [c2] ++ [c1]).length - 2) = tb2 := by
          rw [List.append_assoc]
          exact List.take_left' (by simp)
        rw [← hcut.1, htb, ht2]
      · rw [(e3 hm tb2 c2 htb).1 hh] at hcut
        simp only [Option.some.injEq, Prod.mk.injEq] at hcut
        exact ⟨1, by omega, by rw [← hcut.1, htake1]⟩
  · by_cases hh : c1 = 'h'
    · rw [e2 hh] at hcut
      simp only [Option.some.injEq, Prod.mk.injEq] at hcut
      exact ⟨1, by omega, by rw [← hcut.1, htake1]⟩
    · rw [e1 hm hh] at hcut
      simp only [Option.some.injEq, Prod.mk.injEq] at hcut
      exact ⟨0, by omega, by rw [← hcut.1, Nat.sub_zero, List.take_length]⟩

/-- The text at `atol` for decimal digits followed by `hm` or `mm`. -/
theorem configIntCut_stacked (l : List Char) (off k : Nat) (ds suffix rest : List Char)
    (mult : Int)
    (hspan : l.drop off = List.replicate k ' ' ++ ds ++ suffix ++ rest)
    (hds : ds ≠ []) (hdig : ∀ c ∈ ds, isdigit c = true)
    (hsuf : (suffix = ['h', 'm'] ∧ mult = 3600) ∨ (suffix = ['m', 'm'] ∧ mult = 60))
    (hrest : rest = [] ∨ rest.head? = some ' ' ∨ rest.head? = some '\n') :
    configIntCut l off true =
      some (some (if suffix = ['h', 'm'] then ds else ds ++ ['m'], mult)) := by
  have hhead : ∀ c : Char, (ds ++ [c]).head? ≠ some ' ' := by
    intro c
    cases ds with
    | nil => exact absurd rfl hds
    | cons d t => simpa using (isdigit_ne d (hdig d (by simp))).1
  have htail : ∀ c : Char, c ≠ ' ' ∧ c ≠ '\n' → ∀ x ∈ (ds ++ [c]).tail, x ≠ ' ' ∧ x ≠ '\n' := by
    intro c hc x hx
    cases ds with
    | nil => exact absurd rfl hds
    | cons d t =>
      simp only [List.cons_append, List.tail_cons, List.mem_append, List.mem_singleton] at hx
      rcases hx with hx | hx
      · have h := isdigit_ne x (hdig x (by simp [hx]))
        exact ⟨h.1, h.2.1⟩
      · rw [hx]; exact hc
  rcases hsuf with ⟨rfl, rfl⟩ | ⟨rfl, rfl⟩
  · rw [show List.replicate k ' ' ++ ds ++ ['h', 'm'] ++ rest =
      List.replicate k ' ' ++ (ds ++ ['h'] ++ ['m']) ++ rest by simp] at hspan
    rw [configIntCut_last_m l off k ds rest 'h' hspan (hhead 'h')
      (htail 'h' ⟨by decide, by decide⟩) hrest, if_pos rfl, if_pos rfl]
    norm_num
  · rw [show List.replicate k ' ' ++ ds ++ ['m', 'm'] ++ rest =
      List.replicate k ' ' ++ (ds ++ ['m'] ++ ['m']) ++ rest by simp] at hspan
    rw [configIntCut_last_m l off k ds rest 'm' hspan (hhead 'm')
      (htail 'm' ⟨by decide, by decide⟩) hrest, if_neg (by decide), if_neg (by decide)]

/-! ## Claims -/

/-- C1. Fail-fast without rollback in `wolfSSHD_LoadSSHD`: when the lines
`pre` load without a rejection and leave the object `c1`, and the next line is
handed to the dispatcher and rejected with status `r`, then whatever lines
`post` follow, the load returns `r` and the object is `c1`: the object of the
lines before the rejected one, untouched by that line and by every later one. -/
theorem C1_fail_fast_no_rollback (conf c1 c2 : WOLFSSHD_CONFIG) (pre post : List (List Char))
    (line : List Char) (r : Int)
    (hpre : wolfSSHD_LoadSSHD (some conf) (some pre) = some (WS_SUCCESS, some c1))
    (hline : isDispatched line)
    (hrej : wolfSSHD_ParseConfigLine c1 (lineBody line) = some (r, c2))
    (hr : r ≠ WS_SUCCESS) :
    wolfSSHD_LoadSSHD (some conf) (some (pre ++ line :: post)) = some (r, some c1) ∧
      c2 = c1 := by
  have hc := parse_reject_unchanged c1 (lineBody line) r c2 hrej hr
  refine ⟨?_, hc⟩
  have hpre1 : loadLoop conf WS_SUCCESS pre = some (WS_SUCCESS, c1) := by
    simp only [wolfSSHD_LoadSSHD, Option.map_eq_some'] at hpre
    obtain ⟨p, hp, hp2⟩ := hpre
    obtain ⟨r0, c0⟩ := p
    simp only [Prod.mk.injEq, Option.some.injEq] at hp2
    rw [hp, hp2.1, hp2.2]
  simp only [wolfSSHD_LoadSSHD]
  rw [loadLoop_append pre (line :: post) conf c1 hpre1, loadLoop_dispatch _ _ _ _ hline, hrej]
  simp [hr, hc]

/-- Witness of C1: a file whose first line sets the login grace time, whose
second line is an unknown directive and whose third line would enable empty
passwords. -/
theorem C1_fail_fast_no_rollback_witness :
    wolfSSHD_LoadSSHD (some freshConfig)
        (some (["LoginGraceTime 2m\n".toList] ++ "UnknownDirective xyz\n".toList ::
          ["PermitEmptyPasswords yes\n".toList])) =
      some (WS_BAD_ARGUMENT, some { freshConfig with loginTimer := 120 }) :=
  (C1_fail_fast_no_rollback freshConfig { freshConfig with loginTimer := 120 }
    { freshConfig with loginTimer := 120 } ["LoginGraceTime 2m\n".toList]
    ["PermitEmptyPasswords yes\n".toList] "UnknownDirective xyz\n".toList WS_BAD_ARGUMENT
    (by decide) (by decide) (by decide) (by decide)).1

/-- C2. Unknown directives are rejected: a line that begins with none of the
eleven directive keywords makes `wolfSSHD_ParseConfigLine` return
`WS_BAD_ARGUMENT`, which is not the success status, and leaves the object as
it was. -/
theorem C2_unknown_directive_rejected (conf : WOLFSSHD_CONFIG) (l : List Char)
    (h : ∀ kw ∈ directiveKeywords, ¬ kw <+: l) :
    wolfSSHD_ParseConfigLine conf l = some (WS_BAD_ARGUMENT, conf) ∧
      WS_BAD_ARGUMENT ≠ WS_SUCCESS :=
  ⟨parse_of_no_keyword conf l h, bad_ne_success⟩

/-- Witness of C2 on the line `UnknownDirective xyz`. -/
theorem C2_unknown_directive_rejected_witness :
    wolfSSHD_ParseConfigLine freshConfig "UnknownDirective xyz\n".toList =
        some (WS_BAD_ARGUMENT, freshConfig) ∧ WS_BAD_ARGUMENT ≠ WS_SUCCESS :=
  C2_unknown_directive_rejected freshConfig "UnknownDirective xyz\n".toList (by decide)

/-- C3. Last write wins fails for `PermitEmptyPasswords`: after the accepted
lines `PermitEmptyPasswords yes` and `PermitEmptyPasswords no` the
empty-password option still reads 1, while the second line alone leaves it 0;
the `no` branch never clears the flag. -/
theorem C3_permit_empty_yes_then_no :
    (wolfSSHD_LoadSSHD (wolfSSHD_NewConfig 0)
        (some ["PermitEmptyPasswords yes\n".toList, "PermitEmptyPasswords no\n".toList])).map
        (fun p => (p.1, wolfSSHD_ConfigGetOption p.2 WOLFSSHD_EMPTY_PASSWORD)) =
      some (WS_SUCCESS, some 1) ∧
    (wolfSSHD_LoadSSHD (wolfSSHD_NewConfig 0)
        (some ["PermitEmptyPasswords no\n".toList])).map
        (fun p => (p.1, wolfSSHD_ConfigGetOption p.2 WOLFSSHD_EMPTY_PASSWORD)) =
      some (WS_SUCCESS, some 0) := by
  decide

/-- C4. The privilege-separation value is not validated: the line
`UsePrivilegeSeparation foo`, whose value begins with none of `sandbox`, `yes`
and `no`, is accepted with the success status, because the status of the
successful string extraction is already success when the three comparisons
run. -/
theorem C4_privilege_separation_any_value :
    wolfSSHD_ParseConfigLine freshConfig "UsePrivilegeSeparation foo\n".toList =
        some (WS_SUCCESS, freshConfig) ∧
      ¬ "sandbox".toList <+: "foo\n".toList ∧ ¬ "yes".toList <+: "foo\n".toList ∧
      ¬ "no".toList <+: "foo\n".toList := by
  decide

/-- C5. Duration scaling in `wolfSSHD_GetConfigInt` with unit parsing enabled:
on a span that is `k` spaces, a non-empty string `ds` of decimal digits, an
optional suffix `m` or `h`, and a rest that is empty or begins with a space or
a newline, the result is the number `ds` denotes times the multiplier of the
suffix (1, 60, 3600) when the number is positive and the product fits in a
`long`, and 0, the parsed value without scaling, when the digits denote 0. -/
theorem C5_duration_scaling (l : List Char) (off k : Nat) (ds suffix rest : List Char)
    (mult : Int)
    (hspan : l.drop off = List.replicate k ' ' ++ ds ++ suffix ++ rest)
    (hds : ds ≠ []) (hdig : ∀ c ∈ ds, isdigit c = true)
    (hsuf : (suffix = [] ∧ mult = 1) ∨ (suffix = ['m'] ∧ mult = 60) ∨
      (suffix = ['h'] ∧ mult = 3600))
    (hrest : rest = [] ∨ rest.head? = some ' ' ∨ rest.head? = some '\n') :
    (0 < decimalValue ds → (decimalValue ds : Int) * mult < 2 ^ 63 →
        wolfSSHD_GetConfigInt l off true = some ((decimalValue ds : Int) * mult)) ∧
      (decimalValue ds = 0 → wolfSSHD_GetConfigInt l off true = some 0) :=
  getConfigInt_duration l off k ds suffix rest mult hspan hds hdig hsuf hrest

/-- Witness of C5 on the span `5m`. -/
theorem C5_duration_scaling_witness :
    wolfSSHD_GetConfigInt "5m".toList 0 true = some 300 :=
  (C5_duration_scaling "5m".toList 0 0 "5".toList "m".toList [] 60 (by decide) (by decide)
    (by decide) (by decide) (by decide)).1 (by decide) (by decide)

/-- C6. An unparsable duration is not signalled: on the value of the line
`LoginGraceTime abc` the extractor returns 0, which is not negative and is the
value of the valid duration `0`, and the dispatcher accepts the line with a
login grace time of 0. -/
theorem C6_unparsable_duration_is_zero :
    wolfSSHD_GetConfigInt "LoginGraceTime abc\n".toList 14 true = some 0 ∧
      wolfSSHD_GetConfigInt "LoginGraceTime 0\n".toList 14 true = some 0 ∧
      wolfSSHD_ParseConfigLine freshConfig "LoginGraceTime abc\n".toList =
        some (WS_SUCCESS, { freshConfig with loginTimer := 0 }) := by
  decide

/-- C7. Trimmed-string extraction: `wolfSSHD_CreateString` returns
`WS_BAD_ARGUMENT` exactly when the span is empty or holds only spaces, and then
leaves `*out` as it was; on every other span it returns success and the output
is the span without its maximal run of leading spaces, all later bytes kept in
order. -/
theorem C7_create_string_trims (out : Option (List Char)) (inp : List Char) :
    ((wolfSSHD_CreateString out inp).1 = WS_BAD_ARGUMENT ↔ ∀ c ∈ inp, c = ' ') ∧
      wolfSSHD_CreateString out inp =
        if ∀ c ∈ inp, c = ' ' then (WS_BAD_ARGUMENT, out)
        else (WS_SUCCESS, some (inp.dropWhile (fun c => decide (c = ' ')))) := by
  refine ⟨?_, createString_eq out inp⟩
  rw [createString_eq]
  by_cases h : ∀ c ∈ inp, c = ' '
  · simp only [if_pos h, true_iff]
    exact h
  · rw [if_neg h]
    exact ⟨fun e => absurd e.symm bad_ne_success, fun e => absurd e h⟩

/-- C8. LoginGraceTime round trip: for a non-empty string of decimal digits
that denotes a positive number and a suffix that is absent, `m` or `h`, with
the scaled value inside a `long`, loading the one line
`LoginGraceTime <digits><suffix>` into a fresh object returns success and the
login-grace option then reads the number times 1, 60 or 3600. On every line
that begins with `LoginGraceTime` and is longer than the keyword the extractor
returns a value and the line fails exactly when that value is negative. -/
theorem C8_login_grace_round_trip (ds suffix : List Char) (mult : Int)
    (hds : ds ≠ []) (hdig : ∀ c ∈ ds, isdigit c = true) (hpos : 0 < decimalValue ds)
    (hsuf : (suffix = [] ∧ mult = 1) ∨ (suffix = ['m'] ∧ mult = 60) ∨
      (suffix = ['h'] ∧ mult = 3600))
    (hfit : (decimalValue ds : Int) * mult < 2 ^ 63) :
    (∃ c, wolfSSHD_LoadSSHD (wolfSSHD_NewConfig 0)
          (some ["LoginGraceTime ".toList ++ ds ++ suffix ++ ['\n']]) =
          some (WS_SUCCESS, some c) ∧
        wolfSSHD_ConfigGetOption (some c) WOLFSSHD_GRACE_LOGIN_TIME =
          some ((decimalValue ds : Int) * mult)) ∧
      (∀ (conf : WOLFSSHD_CONFIG) (l : List Char), loginGraceTime <+: l → 14 < l.length →
        ∃ num, wolfSSHD_GetConfigInt l 14 true = some num ∧
          ((∃ c, wolfSSHD_ParseConfigLine conf l = some (WS_SUCCESS, c)) ↔ ¬ num < 0) ∧
          wolfSSHD_ParseConfigLine conf l =
            some (if num < 0 then (WS_BAD_ARGUMENT, conf)
              else (WS_SUCCESS, { conf with loginTimer := num }))) := by
  constructor
  · refine ⟨{ freshConfig with loginTimer := (decimalValue ds : Int) * mult }, ?_, ?_⟩
    · simp only [wolfSSHD_LoadSSHD, wolfSSHD_NewConfig]
      rw [load_loginGraceTime_line freshConfig ds suffix mult hds hdig hpos hsuf hfit]
      rfl
    · simp [wolfSSHD_ConfigGetOption, WOLFSSHD_GRACE_LOGIN_TIME, WOLFSSHD_EMPTY_PASSWORD]
  · intro conf l hl hlen
    obtain ⟨num, hnum, hparse⟩ := parse_loginGraceTime_value conf l hl hlen
    refine ⟨num, hnum, ?_, hparse⟩
    rw [hparse]
    by_cases hneg : num < 0
    · simp [hneg, bad_ne_success]
    · simp [hneg]

/-- Witness of C8 on the file whose only line is `LoginGraceTime 2m`. -/
theorem C8_login_grace_round_trip_witness :
    ∃ c, wolfSSHD_LoadSSHD (wolfSSHD_NewConfig 0)
        (some ["LoginGraceTime 2m\n".toList]) = some (WS_SUCCESS, some c) ∧
      wolfSSHD_ConfigGetOption (some c) WOLFSSHD_GRACE_LOGIN_TIME = some 120 :=
  (C8_login_grace_round_trip "2".toList "m".toList 60 (by decide) (by decide) (by decide)
    (by decide) (by decide)).1

/-- C9. Empty-password policy: on an object whose empty-password flag is false
and a line that begins with `PermitEmptyPasswords`, a value that begins with
`yes` after its leading spaces makes the dispatcher return success with the
flag set, so that the option reads 1, and a value that begins with `no` makes
it return success with the object unchanged, so that the option reads 0. -/
theorem C9_permit_empty_passwords (conf : WOLFSSHD_CONFIG) (l : List Char)
    (hdef : conf.permitEmptyPasswords = false) (hkw : permitEmptyPasswords <+: l) :
    ("yes".toList <+: (l.drop 20).dropWhile (fun c => decide (c = ' ')) →
        wolfSSHD_ParseConfigLine conf l =
          some (WS_SUCCESS, { conf with permitEmptyPasswords := true }) ∧
        wolfSSHD_ConfigGetOption (some { conf with permitEmptyPasswords := true })
          WOLFSSHD_EMPTY_PASSWORD = some 1) ∧
      ("no".toList <+: (l.drop 20).dropWhile (fun c => decide (c = ' ')) →
        wolfSSHD_ParseConfigLine conf l = some (WS_SUCCESS, conf) ∧
        wolfSSHD_ConfigGetOption (some conf) WOLFSSHD_EMPTY_PASSWORD = some 0) := by
  have hne : ∀ v : List Char, v ≠ [] → v <+: (l.drop 20).dropWhile (fun c => decide (c = ' ')) →
      ¬ l.length ≤ 20 ∧ ¬ ∀ c ∈ l.drop 20, c = ' ' := by
    intro v hv hpre
    have hnil : (l.drop 20).dropWhile (fun c => decide (c = ' ')) ≠ [] := by
      intro e
      rw [e] at hpre
      exact hv (List.prefix_nil.1 hpre)
    constructor
    · intro hle
      apply hnil
      rw [List.drop_eq_nil_of_le hle]
      rfl
    · intro hall
      apply hnil
      rw [List.dropWhile_eq_nil_iff]
      intro c hc
      simp [hall c hc]
  rw [parse_permitEmptyPasswords conf l hkw, blockPermitEmptyPasswords_hit l _ hkw]
  constructor
  · intro hyes
    obtain ⟨h1, h2⟩ := hne _ (by decide) hyes
    rw [if_neg h1, if_neg h2, if_pos hyes]
    exact ⟨rfl, by simp [wolfSSHD_ConfigGetOption]⟩
  · intro hno
    obtain ⟨h1, h2⟩ := hne _ (by decide) hno
    have hyes : ¬ "yes".toList <+: (l.drop 20).dropWhile (fun c => decide (c = ' ')) := by
      intro hyes
      rcases List.prefix_or_prefix_of_prefix hyes hno with h | h
      · exact absurd h (by decide)
      · exact absurd h (by decide)
    rw [if_neg h1, if_neg h2, if_neg hyes]
    exact ⟨rfl, by simp [wolfSSHD_ConfigGetOption, hdef]⟩

/-- Witness of C9 on the line `PermitEmptyPasswords yes`. -/
theorem C9_permit_empty_passwords_witness :
    wolfSSHD_ParseConfigLine freshConfig "PermitEmptyPasswords yes\n".toList =
        some (WS_SUCCESS, { freshConfig with permitEmptyPasswords := true }) ∧
      wolfSSHD_ConfigGetOption (some { freshConfig with permitEmptyPasswords := true })
        WOLFSSHD_EMPTY_PASSWORD = some 1 :=
  (C9_permit_empty_passwords freshConfig "PermitEmptyPasswords yes\n".toList (by decide)
    (by decide)).1 (by decide)

/-- C10. An empty value is dereferenced: on a line that is `AuthorizedKeysFile`
followed only by spaces the dispatcher returns the empty-value status, but on
`UsePrivilegeSeparation` or `PermitEmptyPasswords` followed only by spaces it
compares the string that the failed extractor left null, which is a fault. -/
theorem C10_empty_value_null_read (conf : WOLFSSHD_CONFIG) (k : Nat) :
    wolfSSHD_ParseConfigLine conf (authKeyFile ++ List.replicate (k + 1) ' ') =
        some (WS_BAD_ARGUMENT, conf) ∧
      wolfSSHD_ParseConfigLine conf (privilegeSeparation ++ List.replicate (k + 1) ' ') = none ∧
      wolfSSHD_ParseConfigLine conf (permitEmptyPasswords ++ List.replicate (k + 1) ' ') =
        none := by
  refine ⟨?_, ?_, ?_⟩
  · rw [parse_authKeyFile conf _ (List.prefix_append _ _),
      blockAuthKeysFile_hit _ _ (List.prefix_append _ _)]
    have hl : authKeyFile.length = 18 := by decide
    simp [hl]
  · rw [parse_privilegeSeparation conf _ (List.prefix_append _ _),
      blockPrivilegeSeparation_hit _ _ (List.prefix_append _ _)]
    have hl : privilegeSeparation.length = 22 := by decide
    simp [hl]
  · rw [parse_permitEmptyPasswords conf _ (List.prefix_append _ _),
      blockPermitEmptyPasswords_hit _ _ (List.prefix_append _ _)]
    have hl : permitEmptyPasswords.length = 20 := by decide
    simp [hl]

/-- C11. The accessors on a null object: `wolfSSHD_GetBanner`,
`wolfSSHD_GetAuthKeysFile` and `wolfSSHD_GetHostPrivateKey` return null and
`wolfSSHD_GetPort` returns 0, but `wolfSSHD_ConfigGetOption` reads through the
null object for both of its option keys, which is a fault; it returns 0 only
for a key that is neither of them. -/
theorem C11_null_object_accessors :
    wolfSSHD_GetBanner none = none ∧ wolfSSHD_GetAuthKeysFile none = none ∧
      wolfSSHD_GetHostPrivateKey none = none ∧ wolfSSHD_GetPort none = 0 ∧
      wolfSSHD_ConfigGetOption none WOLFSSHD_EMPTY_PASSWORD = none ∧
      wolfSSHD_ConfigGetOption none WOLFSSHD_GRACE_LOGIN_TIME = none ∧
      (∀ opt, opt ≠ WOLFSSHD_EMPTY_PASSWORD → opt ≠ WOLFSSHD_GRACE_LOGIN_TIME →
        wolfSSHD_ConfigGetOption none opt = some 0) := by
  refine ⟨rfl, rfl, rfl, rfl, rfl, rfl, ?_⟩
  intro opt h1 h2
  simp [wolfSSHD_ConfigGetOption, h1, h2]

/-- C12. Comment and blank skipping: when every line, after removal of its
leading spaces, has fewer than two bytes or begins with `#`, the load returns
success and the object is the one it was given. -/
theorem C12_blank_and_comment_lines (conf : WOLFSSHD_CONFIG) (lines : List (List Char))
    (h : ∀ b ∈ lines, (lineBody b).length < 2 ∨ (lineBody b).head? = some '#') :
    wolfSSHD_LoadSSHD (some conf) (some lines) = some (WS_SUCCESS, some conf) := by
  have hs : ∀ b ∈ lines, ¬ isDispatched b := by
    intro b hb hd
    rcases h b hb with h1 | h1
    · exact absurd hd.1 (by omega)
    · exact hd.2 h1
  simp only [wolfSSHD_LoadSSHD, loadLoop_all_skipped conf WS_SUCCESS lines hs, Option.map_some']

/-- Witness of C12: blank lines, a line of spaces and two comments loaded into
a fresh object. -/
theorem C12_blank_and_comment_lines_witness :
    wolfSSHD_LoadSSHD (some freshConfig)
        (some ["\n".toList, "# Port 22\n".toList, "    \n".toList, "  #UsePAM yes\n".toList]) =
      some (WS_SUCCESS, some freshConfig) :=
  C12_blank_and_comment_lines freshConfig
    ["\n".toList, "# Port 22\n".toList, "    \n".toList, "  #UsePAM yes\n".toList] (by decide)

/-- C13. Recognised-but-unimplemented directives are no-ops: a line that begins
with one of the seven keywords makes the dispatcher return success whatever
follows the keyword, and the object is unchanged in every field. -/
theorem C13_unimplemented_directives_noop (conf : WOLFSSHD_CONFIG) (l kw : List Char)
    (hkw : kw ∈ noopKeywords) (h : kw <+: l) :
    wolfSSHD_ParseConfigLine conf l = some (WS_SUCCESS, conf) :=
  parse_noop conf l kw hkw h

/-- Witness of C13 on the line `Subsystem sftp /usr/lib/sftp-server`. -/
theorem C13_unimplemented_directives_noop_witness :
    wolfSSHD_ParseConfigLine freshConfig "Subsystem sftp /usr/lib/sftp-server\n".toList =
      some (WS_SUCCESS, freshConfig) :=
  C13_unimplemented_directives_noop freshConfig "Subsystem sftp /usr/lib/sftp-server\n".toList
    "Subsystem".toList (by decide) (by decide)

/-- C14. The listening port is the fixed default and no directive moves it:
whatever the lines are, when the load into a fresh object returns, with
success or with an error status, `wolfSSHD_GetPort` gives 9387,
`wolfSSHD_GetBanner` gives null, and the object differs from the fresh one at
most in the authorized-keys path, the login-grace value and the empty-password
flag. The load does return when no line is one of those on which the
dispatcher compares a null string. -/
theorem C14_port_and_banner_fixed (lines : List (List Char)) :
    (∀ r c, wolfSSHD_LoadSSHD (wolfSSHD_NewConfig 0) (some lines) = some (r, c) →
        wolfSSHD_GetPort c = 9387 ∧ wolfSSHD_GetBanner c = none ∧
        ∃ c1, c = some c1 ∧ onlySettingsDiffer freshConfig c1) ∧
      ((∀ b ∈ lines, ¬ readsNull (lineBody b)) →
        ∃ r c, wolfSSHD_LoadSSHD (wolfSSHD_NewConfig 0) (some lines) = some (r, some c)) := by
  constructor
  · intro r c h
    simp only [wolfSSHD_LoadSSHD, wolfSSHD_NewConfig, Option.map_eq_some'] at h
    obtain ⟨p, hp, hp2⟩ := h
    obtain ⟨r0, c0⟩ := p
    simp only [Prod.mk.injEq] at hp2
    have he := (loadLoop_effect lines freshConfig WS_SUCCESS r0 c0 hp).1
    have hi := (onlySettingsDiffer_iff freshConfig c0).1 he
    rw [← hp2.2]
    refine ⟨?_, ?_, c0, rfl, he⟩
    · simp only [wolfSSHD_GetPort]
      rw [hi.2.2.2.2.2.2.2.2.1]
      rfl
    · simp only [wolfSSHD_GetBanner]
      rw [hi.2.1]
      rfl
  · intro hnf
    obtain ⟨p, hp⟩ := loadLoop_returns lines freshConfig WS_SUCCESS hnf
    exact ⟨p.1, p.2, by simp [wolfSSHD_LoadSSHD, wolfSSHD_NewConfig, hp]⟩

/-- Witness of C14: a file that sets all three settings and then fails on an
unknown directive still reports the default port and no banner. -/
theorem C14_port_and_banner_fixed_witness :
    wolfSSHD_GetPort (some { freshConfig with
        authKeysFile := some ("/etc/keys\n".toList),
        loginTimer := 120,
        permitEmptyPasswords := true }) = 9387 ∧
      wolfSSHD_GetBanner (some { freshConfig with
        authKeysFile := some ("/etc/keys\n".toList),
        loginTimer := 120,
        permitEmptyPasswords := true }) = none ∧
      ∃ c1, some { freshConfig with
          authKeysFile := some ("/etc/keys\n".toList),
          loginTimer := 120,
          permitEmptyPasswords := true } = some c1 ∧
        onlySettingsDiffer freshConfig c1 :=
  (C14_port_and_banner_fixed
    ["AuthorizedKeysFile /etc/keys\n".toList, "LoginGraceTime 2m\n".toList,
      "PermitEmptyPasswords yes\n".toList, "Port 22\n".toList]).1 WS_BAD_ARGUMENT
    (some { freshConfig with
      authKeysFile := some ("/etc/keys\n".toList),
      loginTimer := 120,
      permitEmptyPasswords := true }) (by decide)

/-- C15. First-match dispatch: the chain of independent keyword checks of
`wolfSSHD_ParseConfigLine` returns, for every object and line, the status and
object of the dispatcher that runs only the block of the first table entry
whose keyword the line begins with; and no line begins with two different
keywords of the eleven. -/
theorem C15_first_match_dispatch (conf : WOLFSSHD_CONFIG) (l : List Char) :
    wolfSSHD_ParseConfigLine conf l = firstMatchDispatch conf l ∧
      ∀ a ∈ directiveKeywords, ∀ b ∈ directiveKeywords, a <+: l → b <+: l → a = b :=
  ⟨parse_eq_firstMatchDispatch conf l, fun _ ha _ hb hal hbl => keyword_unique ha hb hal hbl⟩

/-- C16, as stated, is false: the line that is exactly `UsePAM` (6 bytes) is
accepted, and no keyword is a proper beginning of it. -/
theorem C16_bare_keyword_counterexample :
    ¬ ∀ (conf : WOLFSSHD_CONFIG) (l : List Char) (c : WOLFSSHD_CONFIG),
      wolfSSHD_ParseConfigLine conf l = some (WS_SUCCESS, c) →
        ∃ k ∈ directiveKeywords, k.length < l.length ∧ k <+: l :=
  fun h => absurd (h freshConfig "UsePAM".toList freshConfig (by decide)) (by decide)

/-- C16, amended. A line that the dispatcher accepts begins with the exact
bytes of a directive keyword, and is longer than the keyword when that is one
of the four directives with a value; a line that is exactly one of those four
keywords is rejected, and a line that is exactly one of the seven
unimplemented keywords is accepted. -/
theorem C16_keyword_match_amended (conf : WOLFSSHD_CONFIG) (l : List Char) :
    (∀ c, wolfSSHD_ParseConfigLine conf l = some (WS_SUCCESS, c) →
        ∃ k ∈ directiveKeywords, k <+: l ∧ (k ∈ valueKeywords → k.length < l.length)) ∧
      (∀ k ∈ valueKeywords, wolfSSHD_ParseConfigLine conf k = some (WS_BAD_ARGUMENT, conf)) ∧
      (∀ k ∈ noopKeywords, wolfSSHD_ParseConfigLine conf k = some (WS_SUCCESS, conf)) :=
  ⟨fun c h => parse_success_keyword conf l c h,
    fun k hk => parse_bare_value_keyword conf k hk,
    fun k hk => parse_noop conf k k hk (List.prefix_refl k)⟩

/-- Witness of the amended C16 on the accepted line `LoginGraceTime 2m`. -/
theorem C16_keyword_match_amended_witness :
    ∃ k ∈ directiveKeywords, k <+: "LoginGraceTime 2m\n".toList ∧
      (k ∈ valueKeywords → k.length < "LoginGraceTime 2m\n".toList.length) :=
  (C16_keyword_match_amended freshConfig "LoginGraceTime 2m\n".toList).1
    { freshConfig with loginTimer := 120 } (by decide)

/-- C17. A rejected line is atomic: when `wolfSSHD_ParseConfigLine` returns a
status that is not success, every field of the object is as before the call. -/
theorem C17_rejected_line_atomic (conf : WOLFSSHD_CONFIG) (l : List Char) (r : Int)
    (c : WOLFSSHD_CONFIG) (h : wolfSSHD_ParseConfigLine conf l = some (r, c))
    (hr : r ≠ WS_SUCCESS) : c = conf :=
  parse_reject_unchanged conf l r c h hr

/-- Witness of C17 on the line `LoginGraceTime -5`, rejected because the
extractor result is negative. -/
theorem C17_rejected_line_atomic_witness :
    wolfSSHD_ParseConfigLine { freshConfig with loginTimer := 120 }
        "LoginGraceTime -5\n".toList =
        some (WS_BAD_ARGUMENT, { freshConfig with loginTimer := 120 }) ∧
      ({ freshConfig with loginTimer := 120 } : WOLFSSHD_CONFIG) =
        { freshConfig with loginTimer := 120 } :=
  ⟨by decide, C17_rejected_line_atomic { freshConfig with loginTimer := 120 }
    "LoginGraceTime -5\n".toList WS_BAD_ARGUMENT { freshConfig with loginTimer := 120 }
    (by decide) (by decide)⟩

/-- C18. The login-grace value is never negative: in every object reached from
a fresh one by calls of `wolfSSHD_ParseConfigLine` and `wolfSSHD_LoadSSHD` on
arbitrary lines, `loginTimer` is at least 0; a product that wraps to a negative
`long` is rejected like any negative extractor result. -/
theorem C18_login_timer_nonneg (c : WOLFSSHD_CONFIG) (h : Reachable c) : 0 ≤ c.loginTimer := by
  induction h with
  | fresh => decide
  | parse c c1 l r _ hp ih =>
    rcases (parse_effect c l r c1 hp).2 with e | e
    · rw [e]; exact ih
    · exact e
  | load c c1 lines r _ hl ih =>
    simp only [wolfSSHD_LoadSSHD, Option.map_eq_some'] at hl
    obtain ⟨p, hp, hp2⟩ := hl
    obtain ⟨r0, c0⟩ := p
    simp only [Prod.mk.injEq, Option.some.injEq] at hp2
    rw [← hp2.2]
    exact (loadLoop_effect lines c WS_SUCCESS r0 c0 hp).2 ih

/-- Witness of C18: the object after the accepted line `LoginGraceTime 2m` and
the rejected line `LoginGraceTime 9223372036854775807m`, whose product wraps. -/
theorem C18_login_timer_nonneg_witness :
    Reachable { freshConfig with loginTimer := 120 } ∧
      0 ≤ ({ freshConfig with loginTimer := 120 } : WOLFSSHD_CONFIG).loginTimer :=
  have hr : Reachable { freshConfig with loginTimer := 120 } :=
    Reachable.load freshConfig { freshConfig with loginTimer := 120 }
      ["LoginGraceTime 2m\n".toList, "LoginGraceTime 9223372036854775807m\n".toList]
      WS_BAD_ARGUMENT Reachable.fresh (by decide)
  ⟨hr, C18_login_timer_nonneg _ hr⟩

/-- C19. The stored authorized-keys path keeps the line terminator: for a
non-empty path `p` without spaces, newlines or NUL bytes, loading the line
`AuthorizedKeysFile <p>` with its newline into a fresh object returns success,
and `wolfSSHD_GetAuthKeysFile` then gives `p` followed by the newline byte,
which is not `p`. -/
theorem C19_auth_keys_path_keeps_newline (p : List Char) (hne : p ≠ [])
    (hp : ∀ c ∈ p, c ≠ ' ' ∧ c ≠ '\n' ∧ c ≠ '\x00') :
    ∃ c, wolfSSHD_LoadSSHD (wolfSSHD_NewConfig 0)
          (some ["AuthorizedKeysFile ".toList ++ p ++ ['\n']]) = some (WS_SUCCESS, some c) ∧
        wolfSSHD_GetAuthKeysFile (some c) = some (p ++ ['\n']) ∧
        wolfSSHD_GetAuthKeysFile (some c) ≠ some p := by
  refine ⟨{ freshConfig with authKeysFile := some (p ++ ['\n']) }, ?_, rfl, ?_⟩
  · simp only [wolfSSHD_LoadSSHD, wolfSSHD_NewConfig]
    rw [load_authKeysFile_line freshConfig p hne hp]
    rfl
  · simp [wolfSSHD_GetAuthKeysFile]

/-- Witness of C19 on the line `AuthorizedKeysFile /etc/keys`. -/
theorem C19_auth_keys_path_keeps_newline_witness :
    ∃ c, wolfSSHD_LoadSSHD (wolfSSHD_NewConfig 0)
          (some ["AuthorizedKeysFile /etc/keys\n".toList]) = some (WS_SUCCESS, some c) ∧
        wolfSSHD_GetAuthKeysFile (some c) = some "/etc/keys\n".toList ∧
        wolfSSHD_GetAuthKeysFile (some c) ≠ some "/etc/keys".toList :=
  C19_auth_keys_path_keeps_newline "/etc/keys".toList (by decide) (by decide)

/-- C20. Stacked unit suffixes: on spaces, a non-empty string of decimal digits
that denotes a positive number and the two bytes `hm`, the extractor with unit
parsing cuts both bytes, so that the text it parses is the digits, and returns
the number times 3600; on the two bytes `mm` it cuts one, parses the digits
followed by `m`, and returns the number times 60 (the product inside a `long`
in both cases). The extractor returns what `finishCut` makes of the text and
multiplier it reaches `atol` with, and on every token these are fixed by the
last two bytes: nothing is cut and the multiplier is 1 when the last byte is
neither `m` nor `h`; one byte is cut when the last byte is `h` (multiplier
3600) or is `m` after a byte other than `h` (multiplier 60); two bytes are cut
when the token ends in `hm` (multiplier 3600). No third byte is ever cut. -/
theorem C20_stacked_unit_suffixes (l : List Char) (off k : Nat) (ds suffix rest : List Char)
    (mult : Int)
    (hspan : l.drop off = List.replicate k ' ' ++ ds ++ suffix ++ rest)
    (hds : ds ≠ []) (hdig : ∀ c ∈ ds, isdigit c = true) (hpos : 0 < decimalValue ds)
    (hsuf : (suffix = ['h', 'm'] ∧ mult = 3600) ∨ (suffix = ['m', 'm'] ∧ mult = 60))
    (hrest : rest = [] ∨ rest.head? = some ' ' ∨ rest.head? = some '\n')
    (hfit : (decimalValue ds : Int) * mult < 2 ^ 63) :
    wolfSSHD_GetConfigInt l off true = some ((decimalValue ds : Int) * mult) ∧
      configIntCut l off true =
        some (some (if suffix = ['h', 'm'] then ds else ds ++ ['m'], mult)) ∧
      (∀ (l1 : List Char) (off1 : Nat),
        wolfSSHD_GetConfigInt l1 off1 true = (configIntCut l1 off1 true).map finishCut) ∧
      ∀ (l1 : List Char) (off1 k1 : Nat) (tb rest1 : List Char) (c1 : Char),
        l1.drop off1 = List.replicate k1 ' ' ++ (tb ++ [c1]) ++ rest1 →
        (tb ++ [c1]).head? ≠ some ' ' → (∀ c ∈ (tb ++ [c1]).tail, c ≠ ' ' ∧ c ≠ '\n') →
        (rest1 = [] ∨ rest1.head? = some ' ' ∨ rest1.head? = some '\n') →
        (c1 ≠ 'm' → c1 ≠ 'h' → configIntCut l1 off1 true = some (some (tb ++ [c1], 1))) ∧
        (c1 = 'h' → configIntCut l1 off1 true = some (some (tb, 3600))) ∧
        (c1 = 'm' → ∀ tb2 c2, tb = tb2 ++ [c2] →
          (c2 ≠ 'h' → configIntCut l1 off1 true = some (some (tb, 60))) ∧
          (c2 = 'h' → configIntCut l1 off1 true = some (some (tb2, 3600)))) ∧
        (c1 = 'm' → tb = [] →
          configIntCut l1 off1 true = none ∨
            configIntCut l1 off1 true = some (some ([], 60))) ∧
        (∀ num m, configIntCut l1 off1 true = some (some (num, m)) →
          ∃ n, n ≤ 2 ∧ num = (tb ++ [c1]).take ((tb ++ [c1]).length - n)) :=
  ⟨getConfigInt_stacked l off k ds suffix rest mult hspan hds hdig hpos hsuf hrest hfit,
    configIntCut_stacked l off k ds suffix rest mult hspan hds hdig hsuf hrest,
    fun l1 off1 => getConfigInt_eq_finishCut l1 off1 true,
    fun l1 off1 k1 tb rest1 c1 h1 h2 h3 h4 =>
      configIntCut_token l1 off1 k1 tb rest1 c1 h1 h2 h3 h4⟩

/-- Witness of C20 on the value of the line `LoginGraceTime 5hm`. -/
theorem C20_stacked_unit_suffixes_witness :
    wolfSSHD_GetConfigInt "LoginGraceTime 5hm\n".toList 14 true = some 18000 ∧
      configIntCut "LoginGraceTime 5hm\n".toList 14 true = some (some ("5".toList, 3600)) :=
  have h := C20_stacked_unit_suffixes "LoginGraceTime 5hm\n".toList 14 1 "5".toList "hm".toList
    "\n".toList 3600 (by decide) (by decide) (by decide) (by decide) (by decide) (by decide)
    (by decide)
  ⟨h.1, h.2.1⟩

end WolfSSHD
